import Mathlib

/-!
Verification development for the ALS (Ableton Live Set) mixing scripts:
a shallow embedding of `scripts/modify_als.py` and the shared value codec
from `scripts/parse_als.py`, together with theorems settling the frozen
claims about the mutation engine and codec.

Modelling conventions:
* XML elements are the inductive `Elem` (tag, ordered attributes, ordered
  children), mirroring `xml.etree.ElementTree`.
* Attribute values are `AttrVal`: either an ordinary string (`.str`) or a
  numeric value written by the engine via Python `str(float)` (`.num`).
  Python `str(float)` always renders a '.' or exponent, so such a value
  never parses as an `int`; `.num` models exactly that.
* Python floats are modelled as exact rationals inside the engine.  The
  one transcendental primitive, `10 ** (db/20)` inside `db_to_linear`, is
  threaded through the mutation engine as an explicit parameter
  `dbLin : Option ℚ → ℚ` (the engine never branches on its output, it only
  stores it).  The real-valued codec itself (`db_to_linear`, `vol_to_db`)
  is defined over `ℝ` below and is the subject of the codec claims.
* A Python run that raises an uncaught exception (TypeError/ValueError/
  AttributeError/IndexError) is modelled as `none`: the process dies and
  no output document is written.
* Success descriptions are modelled structurally (inductive `Msg`) rather
  than as formatted strings; error descriptions (the strings starting with
  "ERROR: " which `main` routes to stderr) are modelled with their exact
  text.
-/

/-- Attribute values: plain strings, or engine-written `str(float)` values. -/
inductive AttrVal where
  | str (s : String)
  | num (q : ℚ)
deriving DecidableEq, Repr

/-- JSON scalar values appearing in a change request. -/
inductive JVal where
  | num (q : ℚ)
  | str (s : String)
deriving DecidableEq, Repr

/-- An XML element: tag, ordered attribute list, ordered children. -/
inductive Elem where
  | mk (tag : String) (attrs : List (String × AttrVal)) (children : List Elem)

/-- Tag accessor. -/
def Elem.tag : Elem → String
  | .mk t _ _ => t

/-- Attribute-list accessor. -/
def Elem.attrs : Elem → List (String × AttrVal)
  | .mk _ a _ => a

/-- Children accessor. -/
def Elem.children : Elem → List Elem
  | .mk _ _ c => c

mutual

/-- Boolean equality on elements (for the `DecidableEq` instance). -/
def beqElem : Elem → Elem → Bool
  | .mk t a c, .mk t' a' c' => decide (t = t') && decide (a = a') && beqElemList c c'

/-- Boolean equality on element lists. -/
def beqElemList : List Elem → List Elem → Bool
  | [], [] => true
  | x :: xs, y :: ys => beqElem x y && beqElemList xs ys
  | _, _ => false

end

mutual

theorem beqElem_iff : ∀ a b, beqElem a b = true ↔ a = b
  | .mk t a c, .mk t' a' c' => by
    rw [beqElem]
    simp only [Bool.and_eq_true, decide_eq_true_eq, Elem.mk.injEq]
    constructor
    · rintro ⟨⟨h1, h2⟩, h3⟩
      exact ⟨h1, h2, (beqElemList_iff c c').1 h3⟩
    · rintro ⟨h1, h2, h3⟩
      exact ⟨⟨h1, h2⟩, (beqElemList_iff c c').2 h3⟩

theorem beqElemList_iff : ∀ a b, beqElemList a b = true ↔ a = b
  | [], [] => by simp [beqElemList]
  | [], _ :: _ => by simp [beqElemList]
  | _ :: _, [] => by simp [beqElemList]
  | x :: xs, y :: ys => by
    rw [beqElemList]
    simp only [Bool.and_eq_true, List.cons.injEq]
    constructor
    · rintro ⟨h1, h2⟩
      exact ⟨(beqElem_iff x y).1 h1, (beqElemList_iff xs ys).1 h2⟩
    · rintro ⟨h1, h2⟩
      exact ⟨(beqElem_iff x y).2 h1, (beqElemList_iff xs ys).2 h2⟩

end

instance : DecidableEq Elem := fun a b => decidable_of_iff _ (beqElem_iff a b)

/-- Look up an attribute (Python `el.get(key)`). -/
def getAttr (e : Elem) (k : String) : Option AttrVal :=
  (e.attrs.find? (fun kv => kv.1 = k)).map (fun kv => kv.2)

/-- Is an attribute present (Python `key in el.attrib`)? -/
def hasAttr (e : Elem) (k : String) : Bool :=
  (e.attrs.find? (fun kv => kv.1 = k)).isSome

/-- Update an association list at a key, replacing the first binding in
place or appending a new one (Python dict assignment). -/
def setAssoc (a : List (String × AttrVal)) (k : String) (v : AttrVal) :
    List (String × AttrVal) :=
  match a with
  | [] => [(k, v)]
  | kv :: rest =>
    if kv.1 = k then (k, v) :: rest else kv :: setAssoc rest k v

/-- Set an attribute (Python `el.set(key, value)`). -/
def setAttr (e : Elem) (k : String) (v : AttrVal) : Elem :=
  .mk e.tag (setAssoc e.attrs k v) e.children

/-- Fetch the subtree at an index path. -/
def subAt : Elem → List ℕ → Option Elem
  | e, [] => some e
  | e, i :: p =>
    match e.children.get? i with
    | none => none
    | some c => subAt c p

/-- Generic list update at an index (leaves the list unchanged when the
index is out of range). -/
def listModify {α : Type} : List α → ℕ → (α → α) → List α
  | [], _, _ => []
  | c :: cs, 0, f => f c :: cs
  | c :: cs, i + 1, f => c :: listModify cs i f

/-- Apply `f` to the subtree at an index path (in-place mutation through an
`ElementTree` alias is modelled as a functional update at the alias's
path). -/
def modifyAt : Elem → List ℕ → (Elem → Elem) → Elem
  | e, [], f => f e
  | .mk t a cs, i :: p, f => .mk t a (listModify cs i (fun c => modifyAt c p f))

mutual

/-- All elements of a subtree in document (pre-order) order: `el.iter()`. -/
def iterAll : Elem → List Elem
  | .mk t a cs => .mk t a cs :: iterAllL cs

/-- `iterAll` over a list of roots. -/
def iterAllL : List Elem → List Elem
  | [] => []
  | c :: cs => iterAll c ++ iterAllL cs

end

mutual

/-- Index paths of all nodes of a subtree in document (pre-order) order,
the root (empty path) first. -/
def pathsAll : Elem → List (List ℕ)
  | .mk _ _ cs => [] :: pathsAllL cs 0

/-- `pathsAll` over a list of roots starting at child index `i`. -/
def pathsAllL : List Elem → ℕ → List (List ℕ)
  | [], _ => []
  | c :: cs, i => (pathsAll c).map (fun p => i :: p) ++ pathsAllL cs (i + 1)

end

/-- Indices of the children of `e` carrying tag `t`, in order. -/
def childIdxTagged (e : Elem) (t : String) : List ℕ :=
  e.children.enum.filterMap (fun ic => if ic.2.tag = t then some ic.1 else none)

/-- One step of `ElementTree` path evaluation: from each candidate path,
the children with the requested tag, in document order. -/
def stepSeg (e : Elem) (ps : List (List ℕ)) (s : String) : List (List ℕ) :=
  ps.flatMap (fun p =>
    match subAt e p with
    | some x => (childIdxTagged x s).map (fun i => p ++ [i])
    | none => [])

/-- `e.findall(path)` for a plain slash-separated path, as index paths. -/
def findPathsFrom (e : Elem) (init : List (List ℕ)) (segs : List String) :
    List (List ℕ) :=
  segs.foldl (stepSeg e) init

/-- Tag of the node at a path. -/
def tagAt (e : Elem) (p : List ℕ) : Option String :=
  (subAt e p).map Elem.tag

/-- `e.findall(".//t/rest...")`: strict descendants tagged `t` in document
order, then plain path steps. -/
def findDescPaths (e : Elem) (t : String) (rest : List String) : List (List ℕ) :=
  findPathsFrom e
    (((pathsAll e).drop 1).filter (fun p => tagAt e p = some t)) rest

/-- `e.find(path)`: the first match of `findall`, as an index path.  When
`desc` is true the path starts with `.//` and `segs` must be nonempty. -/
def findET (e : Elem) (desc : Bool) (segs : List String) : Option (List ℕ) :=
  (match desc, segs with
   | true, s :: rest => findDescPaths e s rest
   | _, _ => findPathsFrom e [[]] segs).head?

/-- All "Id" attribute values of a subtree, in document order. -/
def idList (e : Elem) : List AttrVal :=
  (iterAll e).filterMap (fun x => getAttr x "Id")

/- ### Decimal printing and parsing (Python `str(int)`, `int(...)`, `float(...)`) -/

/-- Fuel-driven decimal printer (structural recursion so that the kernel
can evaluate it; the fuel `n + 1` always suffices since `n / 10 < n`). -/
def natDigitsF : ℕ → ℕ → List Char
  | 0, _ => []
  | f + 1, n =>
    if n < 10 then [Char.ofNat (48 + n)]
    else natDigitsF f (n / 10) ++ [Char.ofNat (48 + n % 10)]

/-- Decimal digit characters of a natural number (Python `str` of a
non-negative int). -/
def natDigits (n : ℕ) : List Char := natDigitsF (n + 1) n

/-- Python `str` of an int, as characters. -/
def intDigits (i : ℤ) : List Char :=
  if i < 0 then '-' :: natDigits (-i).toNat else natDigits i.toNat

/-- Python `str` of an int. -/
def intStr (i : ℤ) : String := String.mk (intDigits i)

/-- Digit accumulation used by the numeric parsers. -/
def digitsFold (cs : List Char) (a : ℕ) : Option ℕ :=
  cs.foldl
    (fun acc c =>
      match acc with
      | none => none
      | some n => if c.isDigit then some (10 * n + (c.toNat - 48)) else none)
    (some a)

/-- Parse a nonempty all-digit character list as a natural number. -/
def parseNatChars (cs : List Char) : Option ℕ :=
  if cs.isEmpty then none else digitsFold cs 0

/-- Drop leading and trailing whitespace characters (Python `str.strip`,
also performed by `int(...)` and `float(...)`). -/
def trimChars (cs : List Char) : List Char :=
  ((cs.dropWhile Char.isWhitespace).reverse.dropWhile Char.isWhitespace).reverse

/-- Python `int(s)` on a plain decimal string (optional sign; underscores
and other exotic accepted forms are not modelled). -/
def parseIntChars (cs : List Char) : Option ℤ :=
  match trimChars cs with
  | [] => none
  | c :: rest =>
    if c = '-' then (parseNatChars rest).map (fun n => -(n : ℤ))
    else if c = '+' then (parseNatChars rest).map (fun n => (n : ℤ))
    else (parseNatChars (c :: rest)).map (fun n => (n : ℤ))

/-- Python `int(...)` applied to an attribute value.  A `.num` value prints
via `str(float)`, which always carries a '.'/exponent and therefore raises
`ValueError` in `int(...)`. -/
def parseIntAttr : AttrVal → Option ℤ
  | .str s => parseIntChars s.data
  | .num _ => none

/-- Unsigned decimal (`digits`, `digits.digits`, `digits.`, `.digits`) as an
exact rational. -/
def parseUnsignedFloat (cs : List Char) : Option ℚ :=
  let ip := cs.takeWhile Char.isDigit
  let rest := cs.dropWhile Char.isDigit
  match rest with
  | [] => if ip.isEmpty then none else (digitsFold ip 0).map (fun n => (n : ℚ))
  | '.' :: frac =>
    if frac.all Char.isDigit ∧ ¬(ip.isEmpty ∧ frac.isEmpty) then
      match digitsFold ip 0, digitsFold frac 0 with
      | some a, some b => some ((a : ℚ) + (b : ℚ) / 10 ^ frac.length)
      | _, _ => none
    else none
  | _ => none

/-- Python `float(s)` on plain decimal literals (exponents, `inf`, `nan`
are not modelled; they do not occur in the documents the claims quantify
over). -/
def parseFloatChars (cs : List Char) : Option ℚ :=
  match trimChars cs with
  | [] => none
  | c :: rest =>
    if c = '-' then (parseUnsignedFloat rest).map (fun q => -q)
    else if c = '+' then parseUnsignedFloat rest
    else parseUnsignedFloat (c :: rest)

/-- Python `float(...)` applied to an attribute value. -/
def parseFloatAttr : AttrVal → Option ℚ
  | .str s => parseFloatChars s.data
  | .num q => some q

/-- Python `float(...)` applied to a JSON value (`float(None)` raises). -/
def parseFloatJ : Option JVal → Option ℚ
  | none => none
  | some (.num q) => some q
  | some (.str s) => parseFloatChars s.data

/-- Split a character list at a separator (Python `str.split(sep)`): the
result always has one more group than there are separators. -/
def splitChar (sep : Char) : List Char → List (List Char)
  | [] => [[]]
  | c :: cs =>
    match splitChar sep cs with
    | [] => [[]]
    | g :: gs => if c = sep then [] :: g :: gs else (c :: g) :: gs

/-- Python `param_path.split("/")`. -/
def splitSlash (s : String) : List String :=
  (splitChar '/' s.data).map String.mk

/- ### Unit codec (`parse_als.vol_to_db`, `modify_als.db_to_linear`, pan codec) -/

/-- The format's silence floor, `0.0003162277571` ("Ableton's -inf"). -/
def silenceFloorQ : ℚ := 3162277571 / 10 ^ 13

/-- The `vol_to_db` cutoff constant `0.0003163` from `parse_als.py`. -/
def volFloorQ : ℚ := 3163 / 10 ^ 7

/-- `modify_als.db_to_linear`: dB to linear amplitude; `None` or any value
`≤ -70` yields the silence floor. -/
noncomputable def db_to_linear (db : Option ℝ) : ℝ :=
  match db with
  | none => (silenceFloorQ : ℝ)
  | some d => if d ≤ -70 then (silenceFloorQ : ℝ) else (10 : ℝ) ^ (d / 20)

/-- `parse_als.vol_to_db`: linear amplitude to dB; `none` models the
`float("-inf")` result. -/
noncomputable def vol_to_db (v : ℝ) : Option ℝ :=
  if v ≤ (volFloorQ : ℝ) then none else some (20 * Real.logb 10 v)

/-- Pan-string parser core (`modify_als.pan_str_to_value` after `str(...)`):
center token, `<pos>L`/`<pos>R`, or bare float; `none` models the
`ValueError` raised by `float(...)` on anything else. -/
def panParseChars (cs0 : List Char) : Option ℚ :=
  let cs := trimChars cs0
  let up := cs.map Char.toUpper
  if up = ['C'] ∨ cs = ['0'] then some 0
  else if up.getLast? = some 'L' then
    (parseFloatChars cs.dropLast).map (fun p => -(p / 50))
  else if up.getLast? = some 'R' then
    (parseFloatChars cs.dropLast).map (fun p => p / 50)
  else parseFloatChars cs

/-- `modify_als.pan_str_to_value` on the JSON `value` field.  `str()` of a
numeric JSON value never matches the center/L/R forms and re-parses to the
same number; `str(None) = "None"` is unparseable, so a missing value is a
`ValueError` (`none`). -/
def pan_str_to_value : Option JVal → Option ℚ
  | some (.num q) => some q
  | some (.str s) => panParseChars s.data
  | none => none

/-- Round to the nearest integer, ties to even (Python float formatting). -/
def roundHalfEven (q : ℚ) : ℤ :=
  let n := ⌊q⌋
  let r := q - n
  if r < 1 / 2 then n else if 1 / 2 < r then n + 1 else if Even n then n else n + 1

/-- Python `f"{q:.0f}"`. -/
def fmt0f (q : ℚ) : String := intStr (roundHalfEven q)

/-- `parse_als.pan_to_str`: internal pan value to position string. -/
def pan_to_str (v : ℚ) : String :=
  if |v| < 1 / 100 then "C"
  else fmt0f (|v| * 50) ++ (if v < 0 then "L" else "R")

/- ### Mutation engine (`modify_als.py`) -/

/-- `DB_LINEAR_PARAMS`: device parameters stored as linear amplitude but
specified in dB. -/
def dbLinearParams : List (String × String) :=
  [("Compressor2", "Threshold"), ("Compressor2", "OutputGain"),
   ("Gate", "Threshold"), ("Gate", "Return")]

/-- `find_max_id`: the highest parseable integer `Id` in the document
(starting accumulator 0). -/
def find_max_id (root : Elem) : ℤ :=
  (idList root).foldl
    (fun m v => match parseIntAttr v with | some k => max m k | none => m) 0

/-- `find_donor_device`: first element of the document, in document order,
whose tag equals the requested device tag. -/
def find_donor_device (root : Elem) (dt : Option String) : Option Elem :=
  (iterAll root).find? (fun x => some x.tag = dt)

mutual

/-- `remap_ids`: walk a subtree in document order, overwriting every
present "Id" attribute with the next counter value (written via
`str(int)`), threading the counter. -/
def remapIds : Elem → ℤ → Elem × ℤ
  | .mk t a cs, n =>
    let p := if (a.find? (fun kv => kv.1 = "Id")).isSome
             then (setAssoc a "Id" (.str (intStr n)), n + 1) else (a, n)
    let q := remapIdsL cs p.2
    (.mk t p.1 q.1, q.2)

/-- `remapIds` over a child list, left to right. -/
def remapIdsL : List Elem → ℤ → List Elem × ℤ
  | [], n => ([], n)
  | c :: cs, n =>
    let p := remapIds c n
    let q := remapIdsL cs p.2
    (p.1 :: q.1, q.2)

end

/-- First child with a given tag, with its index (`el.find(tag)` for a
single-segment path). -/
def firstChildTagged (e : Elem) (t : String) : Option (ℕ × Elem) :=
  e.children.enum.find? (fun ic => ic.2.tag = t)

/-- The `x = device.find(path); if x is not None: x.set("Value", v)`
pattern used by the device resetters. -/
def setManualIfFound (e : Elem) (segs : List String) (v : AttrVal) : Elem :=
  match findET e false segs with
  | none => e
  | some p => modifyAt e p (fun x => setAttr x "Value" v)

/-- The write operations of `reset_eq8_defaults`, in loop order: for each
band 0–7 and each parameter set A/B, band off, gain 0, default Q. -/
def eq8ResetOps : List (List String × AttrVal) :=
  (List.range 8).flatMap (fun i =>
    ["ParameterA", "ParameterB"].flatMap (fun ps =>
      [(["Bands." ++ String.mk (natDigits i), ps, "IsOn", "Manual"],
          AttrVal.str "false"),
       (["Bands." ++ String.mk (natDigits i), ps, "Gain", "Manual"],
          AttrVal.str "0"),
       (["Bands." ++ String.mk (natDigits i), ps, "Q", "Manual"],
          AttrVal.str "0.7071067")]))

/-- `reset_eq8_defaults`: all 8 bands (both parameter sets) off, gain 0,
default Q, performing the writes of `eq8ResetOps` in loop order. -/
def reset_eq8_defaults (dev : Elem) : Elem :=
  eq8ResetOps.foldl (fun acc o => setManualIfFound acc o.1 o.2) dev

/-- The `reset_compressor_defaults` table, in insertion order.  The
threshold default is `str(db_to_linear(0))`, i.e. the engine's dB→linear
primitive at 0 dB. -/
def compressorDefaults (dbLin : Option ℚ → ℚ) : List (String × AttrVal) :=
  [("Threshold", .num (dbLin (some 0))), ("Ratio", .str "2"),
   ("Attack", .str "10"), ("Release", .str "100"), ("DryWet", .str "1"),
   ("GainCompensation", .str "true")]

/-- `reset_compressor_defaults`. -/
def reset_compressor_defaults (dbLin : Option ℚ → ℚ) (dev : Elem) : Elem :=
  (compressorDefaults dbLin).foldl
    (fun acc kv => setManualIfFound acc [kv.1, "Manual"] kv.2) dev

/-- The write operations of the registered resetter for a device tag
(`DEVICE_RESETTERS`): the Eq8 ops, the Compressor2 table routed through
the "Manual" child, or nothing. -/
def deviceResetOps (dbLin : Option ℚ → ℚ) (dt : Option String) :
    List (List String × AttrVal) :=
  match dt with
  | some "Eq8" => eq8ResetOps
  | some "Compressor2" =>
    (compressorDefaults dbLin).map (fun kv => ([kv.1, "Manual"], kv.2))
  | _ => []

/-- `find_device`: path (relative to the track) of the `device_index`-th
child of the track's Devices element carrying the requested tag. -/
def find_device (tEl : Elem) (dt : Option String) (idx : ℕ) : Option (List ℕ) :=
  match findET tEl false ["DeviceChain", "DeviceChain", "Devices"] with
  | none => none
  | some dvrel =>
    match subAt tEl dvrel with
    | none => none
    | some devices =>
      ((devices.children.enum.filterMap
          (fun ic => if some ic.2.tag = dt then some ic.1 else none)).get? idx).map
        (fun i => dvrel ++ [i])

/-- `set_param_value`: navigate a slash-separated path by first-child-with-
tag steps, then write the value into the target's "Manual" child when
present, else into the target's bare "Value" attribute; `none` = failure. -/
def set_param_value : Elem → List String → AttrVal → Option Elem
  | e, [last], v =>
    match firstChildTagged e last with
    | none => none
    | some it =>
      match firstChildTagged it.2 "Manual" with
      | some jm =>
        some (.mk e.tag e.attrs (listModify e.children it.1 (fun _ =>
          .mk it.2.tag it.2.attrs
            (listModify it.2.children jm.1 (fun _ => setAttr jm.2 "Value" v)))))
      | none =>
        if hasAttr it.2 "Value" then
          some (.mk e.tag e.attrs
            (listModify e.children it.1 (fun _ => setAttr it.2 "Value" v)))
        else none
  | e, seg :: rest, v =>
    match firstChildTagged e seg with
    | none => none
    | some ic =>
      (set_param_value ic.2 rest v).map
        (fun c => .mk e.tag e.attrs (listModify e.children ic.1 (fun _ => c)))
  | _, [], _ => none

/-- `parse_als.get_param_value`: read a parameter, preferring the nested
"Manual" child's Value, falling back to the bare Value attribute. -/
def get_param_value (e : Elem) (name : String) : Option AttrVal :=
  match firstChildTagged e name with
  | none => none
  | some ic =>
    match firstChildTagged ic.2 "Manual" with
    | some jm => getAttr jm.2 "Value"
    | none => getAttr ic.2 "Value"

/-- Python `list.insert` combined with the explicit append branch of
`add_device` (`position == -1 or position >= len` appends; other negative
positions use Python's clamped-from-the-end semantics). -/
def pyInsert (pos : ℤ) (z : Elem) (cs : List Elem) : List Elem :=
  if pos = -1 ∨ (cs.length : ℤ) ≤ pos then cs ++ [z]
  else if pos < 0 then List.insertIdx ((cs.length : ℤ) + pos).toNat z cs
  else List.insertIdx pos.toNat z cs

/-- A change request (`changes.json` entry), with the source's defaults. -/
structure Change where
  track_name : String := ""
  track_type : Option String := none
  track_index : ℕ := 0
  target : String := ""
  value : Option JVal := none
  send_index : ℕ := 0
  device_tag : Option String := none
  device_index : ℕ := 0
  param_name : Option String := none
  param_value : Option JVal := none
  position : ℤ := -1
  params : List (String × JVal) := []
  device_name : Option String := none
deriving DecidableEq, Repr

/-- Per-request output lines.  Error lines (`"ERROR: ..."`) carry their
exact text; success lines are modelled structurally (their numeric
formatting is presentation only). -/
inductive Msg where
  | err (s : String)
  | volumeMsg (track : String) (old : ℚ) (newDb : ℚ) (group : Bool)
  | panMsg (track : String) (old : ℚ) (new : Option JVal)
  | sendMsg (track : String) (index : ℕ) (old : ℚ) (newDb : ℚ)
  | paramMsg (track display param : String) (old : Option AttrVal)
      (isDb : Bool) (raw : Option JVal)
  | addMsg (track display : String) (atEnd : Bool) (pos : ℤ)
      (params : List (String × JVal))
deriving DecidableEq, Repr

/-- Does a description line start with "ERROR:"? -/
def Msg.isErr : Msg → Bool
  | .err _ => true
  | _ => false

/-- The error text of an "ERROR:" line. -/
def Msg.errText : Msg → Option String
  | .err s => some s
  | _ => none

/-- Python `f"{x}"` of an optional string (`None` prints as "None"). -/
def pyShow : Option String → String
  | some s => s
  | none => "None"

/-- Python `str(...)` of a JSON value as written into an attribute. -/
def jvalToAttr : Option JVal → AttrVal
  | none => .str "None"
  | some (.num q) => .num q
  | some (.str s) => .str s

/-- The numeric content of the `value` field (`None` and strings have
none). -/
def jnum : Option JVal → Option ℚ
  | some (.num q) => some q
  | _ => none

/-- `e.find(segs)` evaluated at `base` inside `root`, returning an absolute
path. -/
def findETAt (root : Elem) (base : List ℕ) (desc : Bool) (segs : List String) :
    Option (List ℕ) :=
  match subAt root base with
  | none => none
  | some e => (findET e desc segs).map (fun p => base ++ p)

/-- The `volume` / `group_volume` branch of `apply_change`. -/
def applyVolume (dbLin : Option ℚ → ℚ) (root : Elem) (name : String)
    (tpath : List ℕ) (mixerRel : Option (List ℕ)) (value : Option JVal)
    (grp : Bool) : Option (Elem × List Msg) :=
  match value with
  | some (.str _) => none
  | _ =>
    let dbv := jnum value
    let linear := dbLin dbv
    match mixerRel with
    | none => none
    | some mrel =>
      match findETAt root (tpath ++ mrel) false ["Volume", "Manual"] with
      | none => some (root, [])
      | some vpath =>
        match subAt root vpath with
        | none => none
        | some volEl =>
          match (match getAttr volEl "Value" with
                 | none => some (1 : ℚ)
                 | some v => parseFloatAttr v) with
          | none => none
          | some oldVal =>
            match dbv with
            | none => none
            | some q =>
              some (modifyAt root vpath (fun x => setAttr x "Value" (.num linear)),
                [.volumeMsg name oldVal q grp])

/-- The `pan` branch of `apply_change`.  A pan value that
`pan_str_to_value` cannot parse raises `ValueError` before the target
element is even looked up, so the whole run dies (`none`). -/
def applyPan (root : Elem) (name : String) (tpath : List ℕ)
    (mixerRel : Option (List ℕ)) (value : Option JVal) :
    Option (Elem × List Msg) :=
  match pan_str_to_value value with
  | none => none
  | some pv =>
    match mixerRel with
    | none => none
    | some mrel =>
      match findETAt root (tpath ++ mrel) false ["Pan", "Manual"] with
      | none => some (root, [])
      | some ppath =>
        match subAt root ppath with
        | none => none
        | some panEl =>
          match (match getAttr panEl "Value" with
                 | none => some (0 : ℚ)
                 | some v => parseFloatAttr v) with
          | none => none
          | some oldVal =>
            some (modifyAt root ppath (fun x => setAttr x "Value" (.num pv)),
              [.panMsg name oldVal value])

/-- The `send` branch of `apply_change`. -/
def applySend (dbLin : Option ℚ → ℚ) (root : Elem) (name : String)
    (tpath : List ℕ) (mixerRel : Option (List ℕ)) (value : Option JVal)
    (sidx : ℕ) : Option (Elem × List Msg) :=
  match value with
  | some (.str _) => none
  | _ =>
    let dbv := jnum value
    let linear := dbLin dbv
    match mixerRel with
    | none => none
    | some mrel =>
      match findETAt root (tpath ++ mrel) false ["Sends"] with
      | none => some (root, [])
      | some spath =>
        match subAt root spath with
        | none => none
        | some sendsEl =>
          match sendsEl.children.get? sidx with
          | none => some (root, [])
          | some _ =>
            match findETAt root (spath ++ [sidx]) false ["Send", "Manual"] with
            | none => some (root, [])
            | some smpath =>
              match subAt root smpath with
              | none => none
              | some manEl =>
                match (match getAttr manEl "Value" with
                       | none => some silenceFloorQ
                       | some v => parseFloatAttr v) with
                | none => none
                | some oldVal =>
                  match dbv with
                  | none => none
                  | some q =>
                    some (modifyAt root smpath (fun x => setAttr x "Value" (.num linear)),
                      [.sendMsg name sidx oldVal q])

/-- Is a (device tag, parameter) pair registered as dB-encoded-as-linear? -/
def isDbLinear (dt : Option String) (pn : Option String) : Bool :=
  match dt, pn with
  | some t, some p => dbLinearParams.contains (t, p)
  | _, _ => false

/-- The `device_param` branch of `apply_change`. -/
def applyDeviceParam (dbLin : Option ℚ → ℚ) (root : Elem) (name : String)
    (tpath : List ℕ) (tEl : Elem) (c : Change) : Option (Elem × List Msg) :=
  match find_device tEl c.device_tag c.device_index with
  | none => some (root, [.err ("ERROR: Could not find device '" ++
      pyShow c.device_tag ++ "' on track '" ++ name ++ "'")])
  | some drel =>
    let isDb := isDbLinear c.device_tag c.param_name
    match (if isDb then
             match c.param_value with
             | some (.str _) => none
             | some (.num q) => some (AttrVal.num (dbLin (some q)))
             | none => some (AttrVal.num (dbLin none))
           else some (jvalToAttr c.param_value)) with
    | none => none
    | some writeVal =>
      match c.param_name with
      | none => none
      | some pname =>
        match subAt tEl drel with
        | none => none
        | some device =>
          let segs := splitSlash pname
          let oldVal : Option AttrVal :=
            match findET device false segs with
            | none => none
            | some prel =>
              match subAt device prel with
              | none => none
              | some target =>
                match firstChildTagged target "Manual" with
                | some jm => getAttr jm.2 "Value"
                | none => getAttr target "Value"
          match (if isDb then
                   match oldVal with
                   | some v => (parseFloatAttr v).map (fun _ => ())
                   | none => some ()
                 else some ()) with
          | none => none
          | some _ =>
            match set_param_value device segs writeVal with
            | none => some (root, [.err ("ERROR: Could not set " ++ pname ++
                " on " ++ pyShow c.device_tag ++ " for track '" ++ name ++ "'")])
            | some device' =>
              some (modifyAt root (tpath ++ drel) (fun _ => device'),
                [.paramMsg name
                  (match c.device_name with
                   | some s => s
                   | none => pyShow c.device_tag)
                  pname oldVal isDb c.param_value])

/-- The requested-initial-parameters loop of the `add_device` branch.
`none` = an uncaught exception; `.error p` = the per-request failure
message for parameter `p`. -/
def applyParamsNew (dbLin : Option ℚ → ℚ) (dt : Option String) :
    Elem → List (String × JVal) → Option (Except String Elem)
  | e, [] => some (.ok e)
  | e, (p, v) :: rest =>
    let isDb := match dt with
      | some t => dbLinearParams.contains (t, p)
      | none => false
    match (if isDb then
             (parseFloatJ (some v)).map (fun q => AttrVal.num (dbLin (some q)))
           else some (jvalToAttr (some v))) with
    | none => none
    | some av =>
      match set_param_value e (splitSlash p) av with
      | none => some (.error p)
      | some e' => applyParamsNew dbLin dt e' rest

/-- The `add_device` branch of `apply_change`: clone a donor, remap its
identifiers to fresh values above the document-wide maximum, reset to
registered defaults when a resetter exists, force the enabled flag, apply
requested parameters, splice into the target chain. -/
def applyAddDevice (dbLin : Option ℚ → ℚ) (root : Elem) (name : String)
    (tpath : List ℕ) (c : Change) : Option (Elem × List Msg) :=
  let display := match c.device_name with
    | some s => s
    | none => pyShow c.device_tag
  match find_donor_device root c.device_tag with
  | none => some (root, [.err ("ERROR: No existing '" ++ pyShow c.device_tag ++
      "' found in project to use as template")])
  | some donor =>
    let cl1 := (remapIds donor (find_max_id root + 1)).1
    let cl2 := match c.device_tag with
      | some "Eq8" => reset_eq8_defaults cl1
      | some "Compressor2" => reset_compressor_defaults dbLin cl1
      | _ => cl1
    let cl3 := setManualIfFound cl2 ["On", "Manual"] (.str "true")
    match applyParamsNew dbLin c.device_tag cl3 c.params with
    | none => none
    | some (.error p) => some (root, [.err ("ERROR: Could not set param '" ++
        p ++ "' on new " ++ pyShow c.device_tag ++ " for '" ++ name ++ "'")])
    | some (.ok newDev) =>
      match findETAt root tpath false ["DeviceChain", "DeviceChain", "Devices"] with
      | none => some (root, [.err ("ERROR: No device chain found on track '" ++
          name ++ "'")])
      | some dpath =>
        match subAt root dpath with
        | none => none
        | some devicesEl =>
          let atEnd := c.position = -1 ∨ (devicesEl.children.length : ℤ) ≤ c.position
          some (modifyAt root dpath
              (fun d => .mk d.tag d.attrs (pyInsert c.position newDev d.children)),
            [.addMsg name display (decide atEnd) c.position c.params])

/-- Character-list prefix test. -/
def prefixOfChars : List Char → List Char → Bool
  | [], _ => true
  | _ :: _, [] => false
  | a :: as, b :: bs => a = b && prefixOfChars as bs

/-- Python's substring test `needle in hay`. -/
def infixOf : List Char → List Char → Bool
  | n, [] => n.isEmpty
  | n, b :: bs => prefixOfChars n (b :: bs) || infixOf n bs

/-- The return-track scan of `apply_change` (first ReturnTrack whose
effective name contains the requested text; `none` = the `in` operator
raised on a non-string attribute). -/
def findReturnAux (rn : String) : List (ℕ × Elem) → Option (Option ℕ)
  | [] => some none
  | ic :: rest =>
    if ic.2.tag = "ReturnTrack" then
      match findET ic.2 true ["Name", "EffectiveName"] with
      | none => findReturnAux rn rest
      | some nrel =>
        match subAt ic.2 nrel with
        | none => findReturnAux rn rest
        | some nameEl =>
          match getAttr nameEl "Value" with
          | some (.num _) => none
          | some (.str s) =>
            if infixOf rn.data s.data then some (some ic.1)
            else findReturnAux rn rest
          | none =>
            if infixOf rn.data [] then some (some ic.1)
            else findReturnAux rn rest
    else findReturnAux rn rest

/-- Track-name resolution (`find_tracks_by_name`): indices of the children
of the Tracks element whose effective name matches exactly, optionally
narrowed by tag. -/
def findTracksByName (tracksEl : Elem) (name : String) (tt : Option String) :
    List ℕ :=
  tracksEl.children.enum.filterMap (fun ic =>
    match findET ic.2 true ["Name", "EffectiveName"] with
    | none => none
    | some nrel =>
      match subAt ic.2 nrel with
      | none => none
      | some nameEl =>
        match getAttr nameEl "Value" with
        | some (.str s) =>
          if s = name ∧ (tt = none ∨ tt = some ic.2.tag) then some ic.1 else none
        | _ => none)

/-- Target-track resolution, shared by every request kind: reserved
master/main tokens, the RETURN: prefix, or exact-name matching with an
occurrence index.  `tp` is the path of the Tracks element found once by
`main`. -/
def resolveTrack (root : Elem) (tp : List ℕ) (c : Change) :
    Option (Except String (List ℕ)) :=
  let nameU := String.mk (c.track_name.data.map Char.toUpper)
  if nameU = "MASTER" ∨ nameU = "MAIN" then
    match findET root true ["LiveSet", "MainTrack"] with
    | some p => some (.ok p)
    | none =>
      match findET root true ["LiveSet", "MasterTrack"] with
      | some p => some (.ok p)
      | none => some (.error "ERROR: Could not find Main/Master track")
  else if prefixOfChars "RETURN:".data nameU.data then
    let rn := String.mk (c.track_name.data.drop 7)
    match subAt root tp with
    | none => none
    | some tracksEl =>
      match findReturnAux rn tracksEl.children.enum with
      | none => none
      | some (some i) => some (.ok (tp ++ [i]))
      | some none =>
        some (.error ("ERROR: Could not find return track '" ++ rn ++ "'"))
  else
    match subAt root tp with
    | none => none
    | some tracksEl =>
      let ms := findTracksByName tracksEl c.track_name c.track_type
      match ms.get? c.track_index with
      | some i => some (.ok (tp ++ [i]))
      | none =>
        if ms.isEmpty then
          some (.error ("ERROR: Could not find track '" ++ c.track_name ++ "'"))
        else
          some (.error ("ERROR: Track '" ++ c.track_name ++ "' index " ++
            intStr c.track_index ++ " out of range (found " ++
            intStr ms.length ++ ")"))

/-- `apply_change`: resolve the target track, then dispatch on the request
kind.  `none` models an uncaught Python exception (the run dies). -/
def applyChange (dbLin : Option ℚ → ℚ) (root : Elem) (tp : List ℕ)
    (c : Change) : Option (Elem × List Msg) :=
  match resolveTrack root tp c with
  | none => none
  | some (.error m) => some (root, [.err m])
  | some (.ok tpath) =>
    match subAt root tpath with
    | none => none
    | some tEl =>
      let mixerRel := findET tEl true ["DeviceChain", "Mixer"]
      if c.target = "volume" then
        applyVolume dbLin root c.track_name tpath mixerRel c.value false
      else if c.target = "pan" then
        applyPan root c.track_name tpath mixerRel c.value
      else if c.target = "send" then
        applySend dbLin root c.track_name tpath mixerRel c.value c.send_index
      else if c.target = "device_param" then
        applyDeviceParam dbLin root c.track_name tpath tEl c
      else if c.target = "add_device" then
        applyAddDevice dbLin root c.track_name tpath c
      else if c.target = "group_volume" then
        applyVolume dbLin root c.track_name tpath mixerRel c.value true
      else some (root, [])

/-- One iteration of `main`'s change loop: apply a request, route its
non-error lines into the success list and its error lines into the error
list. -/
def runStep (dbLin : Option ℚ → ℚ) (tp : List ℕ)
    (st : Elem × List Msg × List String) (c : Change) :
    Option (Elem × List Msg × List String) :=
  match applyChange dbLin st.1 tp c with
  | none => none
  | some (r, msgs) =>
    some (r, st.2.1 ++ msgs.filter (fun m => !m.isErr),
      st.2.2 ++ msgs.filterMap Msg.errText)

/-- `main`'s change loop from a given intermediate state. -/
def runBatchFrom (dbLin : Option ℚ → ℚ) (tp : List ℕ)
    (st : Elem × List Msg × List String) :
    List Change → Option (Elem × List Msg × List String)
  | [] => some st
  | c :: cs =>
    match runStep dbLin tp st c with
    | none => none
    | some st' => runBatchFrom dbLin tp st' cs

/-- `main` after loading: locate the Tracks element once, then fold the
requests.  The result's components are the output document, the success
descriptions, and the collected error lines; `none` covers both the fatal
missing-Tracks exit and an uncaught exception (no output written). -/
def runBatch (dbLin : Option ℚ → ℚ) (root : Elem) (cs : List Change) :
    Option (Elem × List Msg × List String) :=
  match findET root true ["LiveSet", "Tracks"] with
  | none => none
  | some tp => runBatchFrom dbLin tp (root, [], []) cs

/- ### Structural observers used by the theorems -/

/-- The tag-only skeleton of a document: element finds depend only on it. -/
inductive Shape where
  | node (t : String) (cs : List Shape)

/-- Root tag of a shape. -/
def Shape.tagS : Shape → String
  | .node t _ => t

/-- Child shapes of a shape. -/
def Shape.childrenS : Shape → List Shape
  | .node _ cs => cs

mutual

/-- The shape of an element. -/
def shapeOf : Elem → Shape
  | .mk t _ cs => .node t (shapeOfL cs)

/-- Shapes of a list of elements. -/
def shapeOfL : List Elem → List Shape
  | [] => []
  | c :: cs => shapeOf c :: shapeOfL cs

end

mutual

/-- `pathsAll` computed on shapes. -/
def pathsAllS : Shape → List (List ℕ)
  | .node _ cs => [] :: pathsAllSL cs 0

/-- `pathsAllS` over a list of shapes starting at child index `i`. -/
def pathsAllSL : List Shape → ℕ → List (List ℕ)
  | [], _ => []
  | c :: cs, i => (pathsAllS c).map (fun p => i :: p) ++ pathsAllSL cs (i + 1)

end

/-- The "Value" attribute of the node at a path. -/
def getValueAt (e : Elem) (p : List ℕ) : Option AttrVal :=
  (subAt e p).bind (fun x => getAttr x "Value")

/-- Two paths diverge: equal up to some position, then different indices. -/
def Diverge (p q : List ℕ) : Prop :=
  ∃ com i j p2 q2, p = com ++ i :: p2 ∧ q = com ++ j :: q2 ∧ i ≠ j

/- ### Concrete fixture documents used by the witnesses -/

/-- A value-holder child `<Manual Value="v"/>`. -/
def manVal (v : String) : Elem := .mk "Manual" [("Value", .str v)] []

/-- Donor Eq8 device with non-default band values and an Id. -/
def fixDonor : Elem :=
  .mk "Eq8" [("Id", .str "5")]
    [.mk "On" [] [manVal "true"],
     .mk "Bands.0" []
       [.mk "ParameterA" []
         [.mk "IsOn" [] [manVal "true"],
          .mk "Gain" [] [manVal "6"],
          .mk "Q" [] [manVal "2"]]]]

/-- Devices list holding the donor. -/
def fixDevices : Elem := .mk "Devices" [] [fixDonor]

/-- A send holder with a Manual value. -/
def fixHolder : Elem :=
  .mk "TrackSendHolder" [] [.mk "Send" [] [manVal "0.3"]]

/-- Sends element with one holder. -/
def fixSends : Elem := .mk "Sends" [] [fixHolder]

/-- A full mixer: volume, pan, one send. -/
def fixMixer : Elem :=
  .mk "Mixer" []
    [.mk "Volume" [] [manVal "0.5"],
     .mk "Pan" [] [manVal "0"],
     fixSends]

/-- Track "Bass" with a full mixer and a device chain holding the donor. -/
def fixBass : Elem :=
  .mk "MidiTrack" []
    [.mk "Name" [] [.mk "EffectiveName" [("Value", .str "Bass")] []],
     .mk "DeviceChain" []
       [fixMixer,
        .mk "DeviceChain" [] [fixDevices]]]

/-- Track "NoVol" whose mixer has no Volume/Manual and no Pan/Manual. -/
def fixNoVol : Elem :=
  .mk "MidiTrack" []
    [.mk "Name" [] [.mk "EffectiveName" [("Value", .str "NoVol")] []],
     .mk "DeviceChain" []
       [.mk "Mixer" [] [],
        .mk "DeviceChain" [] [.mk "Devices" [] []]]]

/-- The Tracks element. -/
def fixTracks : Elem := .mk "Tracks" [] [fixBass, fixNoVol]

/-- The whole fixture document. -/
def fixRoot : Elem := .mk "Ableton" [] [.mk "LiveSet" [] [fixTracks]]

/-- A concrete interpretation of the dB→linear primitive for witnesses. -/
def dbLinW : Option ℚ → ℚ := fun _ => 1

/-- Pan request with unparseable text. -/
def chPanBad : Change :=
  { track_name := "Bass", target := "pan", value := some (.str "loud") }

/-- Volume request on the track lacking Volume/Manual. -/
def chVolNoVol : Change :=
  { track_name := "NoVol", target := "volume", value := some (.num 0) }

/-- Send request on the Bass track. -/
def chSend : Change :=
  { track_name := "Bass", target := "send", value := some (.num (-10)),
    send_index := 0 }

/-- Request naming a track that does not exist. -/
def chGhost : Change :=
  { track_name := "Ghost", target := "volume", value := some (.num 0) }

/-- add_device request cloning the Eq8 donor. -/
def chAdd : Change :=
  { track_name := "Bass", target := "add_device",
    device_tag := some "Eq8" }

/-- The clone the fixture add_device request inserts (donor remapped,
reset, enabled). -/
def fixNewDev : Elem :=
  setManualIfFound
    (reset_eq8_defaults (remapIds fixDonor (find_max_id fixRoot + 1)).1)
    ["On", "Manual"] (.str "true")

/- ### Codec lemmas and claims C4, C9 -/

/-- The silence-floor constant is strictly below the `vol_to_db` cutoff. -/
theorem silenceFloor_lt_volFloor : silenceFloorQ < volFloorQ := by
  rw [silenceFloorQ, volFloorQ]; norm_num

/-- C4 counterexample: at amplitude 0.0003163 the code returns negative
infinity although the amplitude is strictly above the silence-floor
constant 0.0003162277571, so "negative infinity exactly when amplitude ≤
0.0003162277571" fails. -/
theorem c4_counterexample :
    vol_to_db ((3163 : ℝ) / 10 ^ 7) = none ∧
    (silenceFloorQ : ℝ) < (3163 : ℝ) / 10 ^ 7 := by
  constructor
  · rw [vol_to_db, if_pos]
    rw [volFloorQ]; push_cast; norm_num
  · rw [silenceFloorQ]; push_cast; norm_num

/-- C4 (amended): `vol_to_db` returns negative infinity exactly when the
amplitude is ≤ 0.0003163 (a constant slightly above the silence floor
0.0003162277571 that `db_to_linear` returns for undefined input or
db ≤ -70), and returns 20·log10(amplitude) otherwise. -/
theorem c4_floor_threshold (v d : ℝ) (hd : d ≤ -70) :
    (vol_to_db v = none ↔ v ≤ (volFloorQ : ℝ)) ∧
    ((volFloorQ : ℝ) < v → vol_to_db v = some (20 * Real.logb 10 v)) ∧
    db_to_linear (some d) = (silenceFloorQ : ℝ) ∧
    db_to_linear none = (silenceFloorQ : ℝ) ∧
    (silenceFloorQ : ℝ) < (volFloorQ : ℝ) := by
  refine ⟨?_, ?_, ?_, rfl, ?_⟩
  · rw [vol_to_db]; split_ifs with h <;> simp [h]
  · intro h; rw [vol_to_db, if_neg (not_le.mpr h)]
  · simp only [db_to_linear]; rw [if_pos hd]
  · exact_mod_cast silenceFloor_lt_volFloor

/-- Witness for `c4_floor_threshold` at `v = 0`, `d = -70`. -/
theorem c4_witness :
    ((-70 : ℝ) ≤ -70) ∧ ((0 : ℝ) ≤ (volFloorQ : ℝ)) ∧ vol_to_db 0 = none ∧
    db_to_linear (some (-70)) = (silenceFloorQ : ℝ) := by
  have h := c4_floor_threshold 0 (-70) le_rfl
  have hv : (0 : ℝ) ≤ (volFloorQ : ℝ) := by rw [volFloorQ]; positivity
  exact ⟨le_rfl, hv, h.1.2 hv, h.2.2.1⟩

/-- All well-formed nonzero pan positions round-trip through the codec
(checked exhaustively for positions 1–50, both directions). -/
theorem pan_digit_cases : ∀ p : ℕ, p ≤ 50 → 1 ≤ p →
    pan_str_to_value (some (.str (String.mk (natDigits p) ++ "R"))) =
        some ((p : ℚ) / 50) ∧
    pan_to_str ((p : ℚ) / 50) = String.mk (natDigits p) ++ "R" ∧
    pan_str_to_value (some (.str (String.mk (natDigits p) ++ "L"))) =
        some (-((p : ℚ) / 50)) ∧
    pan_to_str (-((p : ℚ) / 50)) = String.mk (natDigits p) ++ "L" := by
  with_unfolding_all decide

/-- C9 counterexample: the well-formed pan string "0R" parses to 0, which
renders back as the center token "C", not "0R"; so the round-trip fails at
position 0. -/
theorem c9_counterexample :
    pan_str_to_value (some (.str "0R")) = some 0 ∧
    pan_to_str 0 = "C" ∧ ("C" : String) ≠ "0R" := by
  with_unfolding_all decide

/-- C9 (amended): every well-formed pan string with position 1–50 and a
direction letter round-trips exactly, the center token round-trips through
0.0, and every value within 0.01 of zero renders as the center token;
position 0 with a direction letter instead renders as "C". -/
theorem c9_pan_roundtrip (p : ℕ) (v : ℚ) (h1 : 1 ≤ p) (h2 : p ≤ 50)
    (hv : |v| < 1 / 100) :
    pan_str_to_value (some (.str (String.mk (natDigits p) ++ "R"))) =
        some ((p : ℚ) / 50) ∧
    pan_to_str ((p : ℚ) / 50) = String.mk (natDigits p) ++ "R" ∧
    pan_str_to_value (some (.str (String.mk (natDigits p) ++ "L"))) =
        some (-((p : ℚ) / 50)) ∧
    pan_to_str (-((p : ℚ) / 50)) = String.mk (natDigits p) ++ "L" ∧
    pan_str_to_value (some (.str "C")) = some 0 ∧
    pan_to_str 0 = "C" ∧
    pan_to_str v = "C" := by
  obtain ⟨a, b, c, d⟩ := pan_digit_cases p h2 h1
  refine ⟨a, b, c, d, by with_unfolding_all decide, by with_unfolding_all decide, ?_⟩
  rw [pan_to_str, if_pos hv]

/-- Witness for `c9_pan_roundtrip` at position 18 and value 0. -/
theorem c9_witness :
    (1 ≤ 18 ∧ 18 ≤ 50 ∧ |(0 : ℚ)| < 1 / 100) ∧
    pan_to_str ((18 : ℚ) / 50) = String.mk (natDigits 18) ++ "R" := by
  have h := c9_pan_roundtrip 18 0 (by decide) (by decide)
    (by with_unfolding_all decide)
  exact ⟨⟨by decide, by decide, by with_unfolding_all decide⟩, h.2.1⟩

/- ### Path and update lemmas -/

theorem subAt_append (e : Elem) (p q : List ℕ) :
    subAt e (p ++ q) = (subAt e p).bind (fun x => subAt x q) := by
  induction p generalizing e with
  | nil => simp [subAt]
  | cons i p ih =>
    simp only [List.cons_append, subAt]
    cases e.children.get? i with
    | none => rfl
    | some c => exact ih c

theorem listModify_get?_self {α : Type} (l : List α) (i : ℕ) (f : α → α) :
    (listModify l i f).get? i = (l.get? i).map f := by
  induction l generalizing i with
  | nil => simp [listModify]
  | cons c cs ih =>
    cases i with
    | zero => simp [listModify]
    | succ j => simpa [listModify] using ih j

theorem listModify_get?_ne {α : Type} (l : List α) (i j : ℕ) (f : α → α)
    (h : i ≠ j) : (listModify l i f).get? j = l.get? j := by
  induction l generalizing i j with
  | nil => simp [listModify]
  | cons c cs ih =>
    cases i with
    | zero =>
      cases j with
      | zero => exact absurd rfl h
      | succ j' => simp [listModify]
    | succ i' =>
      cases j with
      | zero => simp [listModify]
      | succ j' =>
        simpa [listModify] using ih i' j' (by omega)

theorem listModify_congr {α : Type} (l : List α) (i : ℕ) (f : α → α)
    (h : ∀ c, l.get? i = some c → f c = c) : listModify l i f = l := by
  induction l generalizing i with
  | nil => simp [listModify]
  | cons c cs ih =>
    cases i with
    | zero => simp [listModify, h c rfl]
    | succ j =>
      simp only [listModify, List.cons.injEq, true_and]
      exact ih j (fun c hc => h c hc)

theorem modifyAt_cons (e : Elem) (i : ℕ) (p : List ℕ) (f : Elem → Elem) :
    modifyAt e (i :: p) f =
      .mk e.tag e.attrs (listModify e.children i (fun c => modifyAt c p f)) := by
  cases e; rfl

theorem modifyAt_of_subAt_none (e : Elem) (p : List ℕ) (f : Elem → Elem)
    (h : subAt e p = none) : modifyAt e p f = e := by
  induction p generalizing e with
  | nil => simp [subAt] at h
  | cons i p ih =>
    cases e with
    | mk tg a cs =>
      simp only [subAt, Elem.children] at h
      rw [modifyAt_cons]
      simp only [Elem.tag, Elem.attrs, Elem.children, Elem.mk.injEq, true_and]
      cases hc : cs.get? i with
      | none =>
        exact listModify_congr cs i _ (fun c hcc => by rw [hc] at hcc; cases hcc)
      | some c =>
        rw [hc] at h
        exact listModify_congr cs i _
          (fun c' hcc => by
            rw [hc] at hcc; cases hcc; exact ih c h)

theorem subAt_modifyAt_append (e t : Elem) (p r : List ℕ) (f : Elem → Elem)
    (h : subAt e p = some t) :
    subAt (modifyAt e p f) (p ++ r) = subAt (f t) r := by
  induction p generalizing e with
  | nil =>
    simp only [subAt] at h
    cases h
    simp [modifyAt]
  | cons i p ih =>
    cases e with
    | mk tg a cs =>
      simp only [subAt, Elem.children] at h
      cases hc : cs.get? i with
      | none => rw [hc] at h; cases h
      | some c =>
        rw [hc] at h
        rw [modifyAt_cons]
        show subAt _ (i :: (p ++ r)) = _
        simp only [subAt, Elem.children, listModify_get?_self, hc, Option.map_some]
        exact ih c h

theorem subAt_modifyAt_self (e t : Elem) (p : List ℕ) (f : Elem → Elem)
    (h : subAt e p = some t) :
    subAt (modifyAt e p f) p = some (f t) := by
  have h2 := subAt_modifyAt_append e t p [] f h
  rw [List.append_nil] at h2
  rw [h2]; rfl

theorem subAt_modifyAt_diverge (e : Elem) (com : List ℕ) (i j : ℕ)
    (p q : List ℕ) (f : Elem → Elem) (hij : i ≠ j) :
    subAt (modifyAt e (com ++ i :: p) f) (com ++ j :: q) =
      subAt e (com ++ j :: q) := by
  induction com generalizing e with
  | nil =>
    cases e with
    | mk tg a cs =>
      rw [List.nil_append, List.nil_append, modifyAt_cons]
      show subAt _ (j :: q) = subAt _ (j :: q)
      simp only [subAt, Elem.children, listModify_get?_ne cs i j _ hij]
  | cons k com ih =>
    cases e with
    | mk tg a cs =>
      rw [List.cons_append, List.cons_append, modifyAt_cons]
      show subAt _ (k :: (com ++ j :: q)) = subAt _ (k :: (com ++ j :: q))
      simp only [subAt, Elem.children]
      cases hc : cs.get? k with
      | none => simp [← List.get?_eq_getElem?, listModify_get?_self, hc]
      | some c =>
        simp only [← List.get?_eq_getElem?, listModify_get?_self, hc,
          Option.map_some]
        exact ih c

theorem findETAt_shape (root : Elem) (base : List ℕ) (d : Bool)
    (segs : List String) (q : List ℕ) (h : findETAt root base d segs = some q) :
    ∃ e r, subAt root base = some e ∧ findET e d segs = some r ∧
      q = base ++ r := by
  unfold findETAt at h
  revert h
  cases hs : subAt root base with
  | none => intro h; cases h
  | some e =>
    intro h
    cases hf : findET e d segs with
    | none =>
      rw [show (match some e with
          | none => none
          | some x => (findET x d segs).map (fun p => base ++ p)) =
          (findET e d segs).map (fun p => base ++ p) from rfl, hf] at h
      cases h
    | some r =>
      rw [show (match some e with
          | none => none
          | some x => (findET x d segs).map (fun p => base ++ p)) =
          (findET e d segs).map (fun p => base ++ p) from rfl, hf] at h
      rw [Option.map_some'] at h
      exact ⟨e, r, rfl, hf, (Option.some.inj h).symm⟩

/- ### Shape stability, find semantics, frame lemmas -/

theorem elem_ind (P : Elem → Prop)
    (h : ∀ t a cs, (∀ c ∈ cs, P c) → P (.mk t a cs)) : ∀ e, P e
  | .mk t a cs => h t a cs (fun c hc => elem_ind P h c)
termination_by e => sizeOf e
decreasing_by
  have := List.sizeOf_lt_of_mem hc
  simp only [Elem.mk.sizeOf_spec]
  omega

theorem shapeOfL_eq_map : ∀ cs : List Elem, shapeOfL cs = cs.map shapeOf
  | [] => rfl
  | c :: cs => by rw [shapeOfL, List.map_cons, shapeOfL_eq_map cs]

theorem shapeOf_mk (t : String) (a : List (String × AttrVal)) (cs : List Elem) :
    shapeOf (.mk t a cs) = .node t (shapeOfL cs) := rfl

theorem shapeOf_setAttr (e : Elem) (k : String) (v : AttrVal) :
    shapeOf (setAttr e k v) = shapeOf e := by cases e; rfl

theorem tag_eq_tagS (e : Elem) : e.tag = (shapeOf e).tagS := by cases e; rfl

theorem tag_eq_of_shape {a b : Elem} (h : shapeOf a = shapeOf b) :
    a.tag = b.tag := by rw [tag_eq_tagS, tag_eq_tagS, h]

theorem children_map_of_shape {a b : Elem} (h : shapeOf a = shapeOf b) :
    a.children.map shapeOf = b.children.map shapeOf := by
  cases a with
  | mk ta aa ca =>
    cases b with
    | mk tb ab cb =>
      rw [shapeOf_mk, shapeOf_mk, Shape.node.injEq] at h
      simpa [Elem.children, ← shapeOfL_eq_map] using h.2

theorem subAt_shape : ∀ (q : List ℕ) (a b : Elem), shapeOf a = shapeOf b →
    (subAt a q).map shapeOf = (subAt b q).map shapeOf := by
  intro q
  induction q with
  | nil => intro a b h; simpa [subAt] using h
  | cons i q ih =>
    intro a b h
    have hc := children_map_of_shape h
    have hg : (a.children.get? i).map shapeOf = (b.children.get? i).map shapeOf := by
      rw [← List.get?_map, ← List.get?_map, hc]
    simp only [subAt]
    cases hca : a.children.get? i with
    | none =>
      rw [hca] at hg
      cases hcb : b.children.get? i with
      | none => rfl
      | some cb => rw [hcb] at hg; cases hg
    | some ca =>
      rw [hca] at hg
      cases hcb : b.children.get? i with
      | none => rw [hcb] at hg; cases hg
      | some cb =>
        rw [hcb] at hg
        simp only [Option.map_some', Option.some.injEq] at hg
        exact ih ca cb hg

theorem tagAt_shape {a b : Elem} (h : shapeOf a = shapeOf b) (p : List ℕ) :
    tagAt a p = tagAt b p := by
  have h3 := subAt_shape p a b h
  rw [tagAt, tagAt]
  cases hpa : subAt a p with
  | none =>
    rw [hpa] at h3
    cases hpb : subAt b p with
    | none => rfl
    | some xb => rw [hpb] at h3; cases h3
  | some xa =>
    rw [hpa] at h3
    cases hpb : subAt b p with
    | none => rw [hpb] at h3; cases h3
    | some xb =>
      rw [hpb] at h3
      simp only [Option.map_some', Option.some.injEq] at h3
      simp [tag_eq_of_shape h3]

theorem childIdx_shape_aux (t : String) : ∀ (l1 l2 : List Elem) (n : ℕ),
    l1.map shapeOf = l2.map shapeOf →
    (List.enumFrom n l1).filterMap
        (fun ic => if ic.2.tag = t then some ic.1 else none) =
      (List.enumFrom n l2).filterMap
        (fun ic => if ic.2.tag = t then some ic.1 else none) := by
  intro l1
  induction l1 with
  | nil =>
    intro l2 n h
    cases l2 with
    | nil => rfl
    | cons b l2 => simp at h
  | cons a l1 ih =>
    intro l2 n h
    cases l2 with
    | nil => simp at h
    | cons b l2 =>
      simp only [List.map_cons, List.cons.injEq] at h
      simp only [List.enumFrom, List.filterMap_cons]
      rw [tag_eq_tagS a, tag_eq_tagS b, h.1, ih l2 (n + 1) h.2]

theorem childIdxTagged_shape {a b : Elem} (h : shapeOf a = shapeOf b)
    (t : String) : childIdxTagged a t = childIdxTagged b t := by
  rw [childIdxTagged, childIdxTagged]
  exact childIdx_shape_aux t a.children b.children 0 (children_map_of_shape h)

theorem stepSeg_shape {a b : Elem} (h : shapeOf a = shapeOf b)
    (ps : List (List ℕ)) (s : String) : stepSeg a ps s = stepSeg b ps s := by
  rw [stepSeg, stepSeg]
  apply List.flatMap_congr
  intro p _
  have h3 := subAt_shape p a b h
  cases hpa : subAt a p with
  | none =>
    rw [hpa] at h3
    cases hpb : subAt b p with
    | none => rfl
    | some xb => rw [hpb] at h3; cases h3
  | some xa =>
    rw [hpa] at h3
    cases hpb : subAt b p with
    | none => rw [hpb] at h3; cases h3
    | some xb =>
      rw [hpb] at h3
      simp only [Option.map_some', Option.some.injEq] at h3
      simp [childIdxTagged_shape h3]

theorem findPathsFrom_shape {a b : Elem} (h : shapeOf a = shapeOf b) :
    ∀ (segs : List String) (init : List (List ℕ)),
    findPathsFrom a init segs = findPathsFrom b init segs := by
  intro segs
  induction segs with
  | nil => intro init; rfl
  | cons s segs ih =>
    intro init
    rw [findPathsFrom, findPathsFrom, List.foldl_cons, List.foldl_cons,
      stepSeg_shape h init s]
    exact ih (stepSeg b init s)

theorem pathsAllL_shape : ∀ (cs : List Elem),
    (∀ c ∈ cs, pathsAll c = pathsAllS (shapeOf c)) →
    ∀ i, pathsAllL cs i = pathsAllSL (shapeOfL cs) i := by
  intro cs
  induction cs with
  | nil => intro _ _; rfl
  | cons c cs ih =>
    intro h i
    rw [pathsAllL, shapeOfL, pathsAllSL, h c (by simp),
      ih (fun c hc => h c (by simp [hc])) (i + 1)]

theorem pathsAll_eq_shape : ∀ e : Elem, pathsAll e = pathsAllS (shapeOf e) := by
  intro e
  refine elem_ind (fun e => pathsAll e = pathsAllS (shapeOf e)) ?_ e
  intro t a cs ih
  rw [pathsAll, shapeOf_mk, pathsAllS, pathsAllL_shape cs ih 0]

theorem findDescPaths_shape {a b : Elem} (h : shapeOf a = shapeOf b)
    (s : String) (rest : List String) :
    findDescPaths a s rest = findDescPaths b s rest := by
  rw [findDescPaths, findDescPaths, pathsAll_eq_shape a, pathsAll_eq_shape b, h]
  have hfilter :
      ((pathsAllS (shapeOf b)).drop 1).filter (fun p => tagAt a p = some s) =
      ((pathsAllS (shapeOf b)).drop 1).filter (fun p => tagAt b p = some s) := by
    apply List.filter_congr
    intro p _
    rw [tagAt_shape h p]
  rw [hfilter]
  exact findPathsFrom_shape h rest _

theorem findET_shape {a b : Elem} (h : shapeOf a = shapeOf b)
    (d : Bool) (segs : List String) : findET a d segs = findET b d segs := by
  cases d with
  | false =>
    show (findPathsFrom a [[]] segs).head? = (findPathsFrom b [[]] segs).head?
    rw [findPathsFrom_shape h segs [[]]]
  | true =>
    cases segs with
    | nil =>
      show (findPathsFrom a [[]] []).head? = (findPathsFrom b [[]] []).head?
      rfl
    | cons s rest =>
      show (findDescPaths a s rest).head? = (findDescPaths b s rest).head?
      rw [findDescPaths_shape h s rest]

theorem shapeOfL_listModify (g : Elem → Elem) (hg : ∀ x, shapeOf (g x) = shapeOf x) :
    ∀ (cs : List Elem) (i : ℕ), shapeOfL (listModify cs i g) = shapeOfL cs := by
  intro cs
  induction cs with
  | nil => intro i; rfl
  | cons c cs ih =>
    intro i
    cases i with
    | zero => simp only [listModify, shapeOfL, hg c]
    | succ j => simp only [listModify, shapeOfL, ih j]

theorem modifyAt_nil (e : Elem) (f : Elem → Elem) : modifyAt e [] f = f e := by
  cases e; rfl

theorem shapeOf_modifyAt (f : Elem → Elem) (hf : ∀ x, shapeOf (f x) = shapeOf x) :
    ∀ (p : List ℕ) (e : Elem), shapeOf (modifyAt e p f) = shapeOf e := by
  intro p
  induction p with
  | nil => intro e; rw [modifyAt_nil]; exact hf e
  | cons i p ih =>
    intro e
    cases e with
    | mk t a cs =>
      rw [modifyAt_cons]
      simp only [Elem.tag, Elem.attrs, Elem.children, shapeOf_mk]
      rw [shapeOfL_listModify _ (fun x => ih x) cs i]

theorem remapIdsL_shape : ∀ (cs : List Elem),
    (∀ c ∈ cs, ∀ n, shapeOf (remapIds c n).1 = shapeOf c) →
    ∀ n, shapeOfL (remapIdsL cs n).1 = shapeOfL cs := by
  intro cs
  induction cs with
  | nil => intro _ _; rfl
  | cons c cs ih =>
    intro h n
    rw [remapIdsL]
    simp only [shapeOfL]
    rw [h c (by simp), ih (fun c hc => h c (by simp [hc])) _]

theorem remapIds_shape : ∀ (e : Elem) (n : ℤ),
    shapeOf (remapIds e n).1 = shapeOf e := by
  intro e
  refine elem_ind (fun e => ∀ n, shapeOf (remapIds e n).1 = shapeOf e) ?_ e
  intro t a cs ih n
  rw [remapIds]
  simp only [shapeOf_mk, Shape.node.injEq, true_and]
  exact remapIdsL_shape cs ih _

theorem shapeOf_setManualIfFound (e : Elem) (segs : List String) (v : AttrVal) :
    shapeOf (setManualIfFound e segs v) = shapeOf e := by
  rw [setManualIfFound]
  cases findET e false segs with
  | none => rfl
  | some p => exact shapeOf_modifyAt _ (fun x => shapeOf_setAttr x "Value" v) p e

theorem subAt_single (x : Elem) (i : ℕ) : subAt x [i] = x.children.get? i := by
  cases h : x.children.get? i <;> simp only [subAt, h]

theorem mem_childIdxTagged {x : Elem} {s : String} {i : ℕ}
    (h : i ∈ childIdxTagged x s) :
    ∃ c, x.children.get? i = some c ∧ c.tag = s := by
  rw [childIdxTagged] at h
  obtain ⟨⟨n, c⟩, hmem, hf⟩ := List.mem_filterMap.1 h
  by_cases ht : c.tag = s
  · rw [if_pos ht] at hf
    obtain rfl := Option.some.inj hf
    obtain ⟨hlt, hc⟩ := List.mem_enum hmem
    refine ⟨c, ?_, ht⟩
    rw [List.get?_eq_getElem?, List.getElem?_eq_getElem hlt, hc]
  · rw [if_neg ht] at hf
    cases hf

theorem findPathsFrom_spec (e : Elem) : ∀ (segs : List String)
    (init : List (List ℕ)),
    (∀ p0 ∈ init, (subAt e p0).isSome) →
    ∀ p ∈ findPathsFrom e init segs,
    ∃ p0 ∈ init, ∃ ext : List ℕ,
      p = p0 ++ ext ∧ ext.length = segs.length ∧ (subAt e p).isSome ∧
      ∀ j, j < segs.length →
        tagAt e (p0 ++ ext.take (j + 1)) = segs.get? j := by
  intro segs
  induction segs with
  | nil =>
    intro init hinit p hp
    exact ⟨p, hp, [], by simp, by simp, by simpa using hinit p hp, by simp⟩
  | cons s rest ih =>
    intro init hinit p hp
    rw [findPathsFrom] at hp
    rw [List.foldl_cons] at hp
    have hinit2 : ∀ p1 ∈ stepSeg e init s, (subAt e p1).isSome := by
      intro p1 hp1
      rw [stepSeg] at hp1
      obtain ⟨p0, hp0, hstep⟩ := List.mem_flatMap.1 hp1
      revert hstep
      cases hsub : subAt e p0 with
      | none => intro hstep; cases hstep
      | some x =>
        intro hstep
        obtain ⟨i, hi, rfl⟩ := List.mem_map.1 hstep
        obtain ⟨c, hc, _⟩ := mem_childIdxTagged hi
        rw [subAt_append, hsub, Option.some_bind, subAt_single, hc]
        rfl
    obtain ⟨p1, hp1, ext1, rfl, hlen1, hsome1, htags1⟩ :=
      ih (stepSeg e init s) hinit2 p hp
    rw [stepSeg] at hp1
    obtain ⟨p0, hp0, hstep⟩ := List.mem_flatMap.1 hp1
    revert hstep
    cases hsub : subAt e p0 with
    | none => intro hstep; cases hstep
    | some x =>
      intro hstep
      obtain ⟨i, hi, rfl⟩ := List.mem_map.1 hstep
      obtain ⟨c, hc, hct⟩ := mem_childIdxTagged hi
      refine ⟨p0, hp0, i :: ext1, by simp, by simp [hlen1], ?_, ?_⟩
      · simpa using hsome1
      · intro j hj
        cases j with
        | zero =>
          have ht1 : (i :: ext1).take 1 = [i] := rfl
          have hg : (s :: rest).get? 0 = some s := rfl
          rw [ht1, hg, tagAt, subAt_append, hsub, Option.some_bind,
            subAt_single, hc]
          simp [hct]
        | succ j2 =>
          have h2 := htags1 j2
            (by simp only [List.length_cons] at hj; omega)
          have ht1 : (i :: ext1).take (j2 + 1 + 1) = i :: ext1.take (j2 + 1) := rfl
          have hg : (s :: rest).get? (j2 + 1) = rest.get? j2 := rfl
          rw [ht1, hg, show p0 ++ (i :: ext1.take (j2 + 1)) =
            (p0 ++ [i]) ++ ext1.take (j2 + 1) by simp]
          exact h2

theorem findET_plain_spec {e : Elem} {segs : List String} {p : List ℕ}
    (h : findET e false segs = some p) :
    p.length = segs.length ∧ (subAt e p).isSome ∧
    ∀ j, j < segs.length → tagAt e (p.take (j + 1)) = segs.get? j := by
  have hmem : p ∈ findPathsFrom e [[]] segs := by
    apply List.mem_of_mem_head?
    rw [show (findPathsFrom e [[]] segs).head? = findET e false segs from rfl, h]
    simp
  obtain ⟨p0, hp0, ext, rfl, hlen, hsome, htags⟩ :=
    findPathsFrom_spec e segs [[]] (by simp [subAt]) p hmem
  have hp0nil : p0 = [] := by simpa using hp0
  subst hp0nil
  simp only [List.nil_append] at *
  exact ⟨hlen, hsome, htags⟩

theorem path_trichotomy : ∀ p q : List ℕ,
    (∃ r, q = p ++ r) ∨ (∃ x r, p = q ++ x :: r) ∨ Diverge p q := by
  intro p
  induction p with
  | nil => intro q; exact Or.inl ⟨q, rfl⟩
  | cons i p ih =>
    intro q
    cases q with
    | nil => exact Or.inr (Or.inl ⟨i, p, rfl⟩)
    | cons j q =>
      by_cases hij : i = j
      · subst hij
        rcases ih q with ⟨r, rfl⟩ | ⟨x, r, hp⟩ | ⟨com, a, b, p2, q2, hp, hq, hab⟩
        · exact Or.inl ⟨r, rfl⟩
        · exact Or.inr (Or.inl ⟨x, r, by rw [hp]; rfl⟩)
        · exact Or.inr (Or.inr ⟨i :: com, a, b, p2, q2, by rw [hp]; rfl,
            by rw [hq]; rfl, hab⟩)
      · exact Or.inr (Or.inr ⟨[], i, j, p, q, rfl, rfl, hij⟩)

theorem modifyAt_append (f : Elem → Elem) : ∀ (p q : List ℕ) (e : Elem),
    modifyAt e (p ++ q) f = modifyAt e p (fun t => modifyAt t q f) := by
  intro p
  induction p with
  | nil => intro q e; rw [List.nil_append, modifyAt_nil]
  | cons i p ih =>
    intro q e
    cases e with
    | mk t a cs =>
      rw [List.cons_append, modifyAt_cons, modifyAt_cons]
      simp only [Elem.tag, Elem.attrs, Elem.children, Elem.mk.injEq, true_and]
      congr 1
      funext c
      exact ih q c

theorem getAttr_modifyAt_cons (t : Elem) (i : ℕ) (r : List ℕ)
    (f : Elem → Elem) (k : String) :
    getAttr (modifyAt t (i :: r) f) k = getAttr t k := by
  rw [modifyAt_cons]
  cases t with
  | mk tg a cs => rfl

theorem subAt_setAttr_cons (t : Elem) (k : String) (v : AttrVal) (i : ℕ)
    (r : List ℕ) : subAt (setAttr t k v) (i :: r) = subAt t (i :: r) := by
  cases t with
  | mk tg a cs => rfl

theorem find?_setAssoc_self (a : List (String × AttrVal)) (k : String)
    (v : AttrVal) :
    (setAssoc a k v).find? (fun kv => kv.1 = k) = some (k, v) := by
  induction a with
  | nil => simp [setAssoc]
  | cons kv rest ih =>
    by_cases hk : kv.1 = k
    · simp [setAssoc, hk]
    · simp only [setAssoc, if_neg hk, List.find?]
      rw [show (decide (kv.1 = k)) = false by simpa using hk]
      exact ih

theorem getAttr_setAttr_self (t : Elem) (k : String) (v : AttrVal) :
    getAttr (setAttr t k v) k = some v := by
  rw [setAttr, getAttr]
  simp only [Elem.attrs]
  rw [find?_setAssoc_self]
  rfl

theorem getValueAt_frame (e : Elem) (p q : List ℕ) (v : AttrVal)
    (hne : p ≠ q) :
    getValueAt (modifyAt e q (fun x => setAttr x "Value" v)) p =
      getValueAt e p := by
  rcases path_trichotomy p q with ⟨r, rfl⟩ | ⟨x, r, rfl⟩ |
      ⟨com, a, b, p2, q2, rfl, rfl, hab⟩
  · -- q = p ++ r: the write is at or below the read point
    cases r with
    | nil => exact absurd (by simp) hne
    | cons x r =>
      rw [getValueAt, getValueAt, modifyAt_append]
      cases hsub : subAt e p with
      | none =>
        rw [modifyAt_of_subAt_none e p _ hsub, hsub]
      | some t =>
        have h1 : subAt (modifyAt e p (fun u => modifyAt u (x :: r)
            (fun y => setAttr y "Value" v))) p =
            some (modifyAt t (x :: r) (fun y => setAttr y "Value" v)) :=
          subAt_modifyAt_self e t p _ hsub
        rw [h1, Option.some_bind, Option.some_bind, getAttr_modifyAt_cons]
  · -- p = q ++ x :: r: the read is strictly below the write
    rw [getValueAt, getValueAt]
    cases hsub : subAt e q with
    | none =>
      rw [modifyAt_of_subAt_none e q _ hsub]
    | some t =>
      rw [subAt_modifyAt_append e t q (x :: r) _ hsub, subAt_append, hsub,
        Option.some_bind, subAt_setAttr_cons]
  · rw [getValueAt, getValueAt, subAt_modifyAt_diverge e com b a q2 p2 _
      (fun h => hab h.symm)]

theorem getValueAt_hit (e t : Elem) (p : List ℕ) (v : AttrVal)
    (h : subAt e p = some t) :
    getValueAt (modifyAt e p (fun x => setAttr x "Value" v)) p = some v := by
  rw [getValueAt, subAt_modifyAt_self e t p _ h, Option.some_bind,
    getAttr_setAttr_self]

theorem ops_fold_shape (ops : List (List String × AttrVal)) : ∀ e : Elem,
    shapeOf (ops.foldl (fun acc o => setManualIfFound acc o.1 o.2) e) =
      shapeOf e := by
  induction ops with
  | nil => intro e; rfl
  | cons o rest ih =>
    intro e
    rw [List.foldl_cons, ih (setManualIfFound e o.1 o.2),
      shapeOf_setManualIfFound]

theorem findET_found_ne {e : Elem} {segs1 segs2 : List String} {p1 p2 : List ℕ}
    (h1 : findET e false segs1 = some p1) (h2 : findET e false segs2 = some p2)
    (j : ℕ) (hj1 : j < segs1.length) (hj2 : j < segs2.length)
    (hne : segs1.get? j ≠ segs2.get? j) : p1 ≠ p2 := by
  intro heq
  obtain ⟨_, _, ht1⟩ := findET_plain_spec h1
  obtain ⟨_, _, ht2⟩ := findET_plain_spec h2
  exact hne (by rw [← ht1 j hj1, ← ht2 j hj2, heq])

theorem ops_fold_frame (p : List ℕ) : ∀ (ops : List (List String × AttrVal))
    (e : Elem),
    (∀ o ∈ ops, ∀ q, findET e false o.1 = some q → q ≠ p) →
    getValueAt (ops.foldl (fun acc o => setManualIfFound acc o.1 o.2) e) p =
      getValueAt e p := by
  intro ops
  induction ops with
  | nil => intro e _; rfl
  | cons o rest ih =>
    intro e hcond
    rw [List.foldl_cons]
    have hshape : shapeOf (setManualIfFound e o.1 o.2) = shapeOf e :=
      shapeOf_setManualIfFound e o.1 o.2
    have step : getValueAt (setManualIfFound e o.1 o.2) p = getValueAt e p := by
      rw [setManualIfFound]
      cases hf : findET e false o.1 with
      | none => rfl
      | some q =>
        exact getValueAt_frame e p q o.2
          (fun hh => hcond o (by simp) q hf hh.symm)
    have hcond2 : ∀ o2 ∈ rest, ∀ q,
        findET (setManualIfFound e o.1 o.2) false o2.1 = some q → q ≠ p := by
      intro o2 ho2 q hfq
      rw [findET_shape hshape false o2.1] at hfq
      exact hcond o2 (by simp [ho2]) q hfq
    rw [ih (setManualIfFound e o.1 o.2) hcond2, step]

theorem ops_fold_value : ∀ (ops : List (List String × AttrVal)) (e : Elem),
    List.Pairwise (fun o1 o2 => ∃ j, j < o1.1.length ∧ j < o2.1.length ∧
      o1.1.get? j ≠ o2.1.get? j) ops →
    ∀ o ∈ ops, ∀ p, findET e false o.1 = some p →
    getValueAt (ops.foldl (fun acc x => setManualIfFound acc x.1 x.2) e) p =
      some o.2 := by
  intro ops
  induction ops with
  | nil => intro e _ o ho; cases ho
  | cons o rest ih =>
    intro e hpw o2 ho2 p hfind
    rw [List.foldl_cons]
    rw [List.pairwise_cons] at hpw
    have hshape : shapeOf (setManualIfFound e o.1 o.2) = shapeOf e :=
      shapeOf_setManualIfFound e o.1 o.2
    rcases List.mem_cons.1 ho2 with rfl | hmem
    · have hwrite : getValueAt (setManualIfFound e o2.1 o2.2) p = some o2.2 := by
        rw [setManualIfFound, hfind]
        obtain ⟨_, hsome, _⟩ := findET_plain_spec hfind
        obtain ⟨t, ht⟩ := Option.isSome_iff_exists.1 hsome
        exact getValueAt_hit e t p o2.2 ht
      have hcond : ∀ o3 ∈ rest, ∀ q,
          findET (setManualIfFound e o2.1 o2.2) false o3.1 = some q →
          q ≠ p := by
        intro o3 ho3 q hfq
        rw [findET_shape hshape false o3.1] at hfq
        obtain ⟨j, hj1, hj2, hne⟩ := hpw.1 o3 ho3
        exact findET_found_ne hfq hfind j hj2 hj1 (fun hh => hne hh.symm)
      rw [ops_fold_frame p rest (setManualIfFound e o2.1 o2.2) hcond, hwrite]
    · have hfind2 : findET (setManualIfFound e o.1 o.2) false o2.1 = some p := by
        rw [findET_shape hshape false o2.1]
        exact hfind
      exact ih (setManualIfFound e o.1 o.2) hpw.2 o2 hmem p hfind2

theorem foldl_flatMap {α β γ : Type} (f : γ → β → γ) (g : α → List β) :
    ∀ (xs : List α) (init : γ),
    (xs.flatMap g).foldl f init =
      xs.foldl (fun acc x => (g x).foldl f acc) init := by
  intro xs
  induction xs with
  | nil => intro init; rfl
  | cons x xs ih =>
    intro init
    rw [List.flatMap_cons, List.foldl_append, List.foldl_cons, ih]

theorem reset_comp_eq_fold (dbLin : Option ℚ → ℚ) (dev : Elem) :
    reset_compressor_defaults dbLin dev =
      ((compressorDefaults dbLin).map
          (fun kv => ([kv.1, "Manual"], kv.2))).foldl
        (fun acc o => setManualIfFound acc o.1 o.2) dev := by
  rw [reset_compressor_defaults, List.foldl_map]

theorem insertIdx_split {z : Elem} : ∀ (cs : List Elem) (n : ℕ),
    n ≤ cs.length →
    List.insertIdx n z cs = cs.take n ++ z :: cs.drop n := by
  intro cs
  induction cs with
  | nil =>
    intro n h
    cases n with
    | zero => rfl
    | succ m => simp at h
  | cons c cs ih =>
    intro n h
    cases n with
    | zero => rfl
    | succ m =>
      simp only [List.insertIdx_succ_cons, List.take, List.drop,
        List.cons_append]
      rw [ih m (by simpa using h)]

theorem pyInsert_split (pos : ℤ) (z : Elem) (cs : List Elem) :
    ∃ l1 l2, pyInsert pos z cs = l1 ++ z :: l2 ∧ l1 ++ l2 = cs := by
  rw [pyInsert]
  split
  · exact ⟨cs, [], by simp, by simp⟩
  · rename_i hnot
    split
    · rename_i hneg
      refine ⟨cs.take ((cs.length : ℤ) + pos).toNat,
        cs.drop ((cs.length : ℤ) + pos).toNat, ?_, by simp⟩
      exact insertIdx_split cs _ (by omega)
    · rename_i hnneg
      refine ⟨cs.take pos.toNat, cs.drop pos.toNat, ?_, by simp⟩
      exact insertIdx_split cs _ (by omega)

/- ### Batch-run lemmas -/

/-- `runStep` as an `Option.map` over `applyChange`. -/
theorem runStep_eq (dbLin : Option ℚ → ℚ) (tp : List ℕ) (r : Elem)
    (ok : List Msg) (er : List String) (c : Change) :
    runStep dbLin tp (r, ok, er) c =
      (applyChange dbLin r tp c).map
        (fun pr => (pr.1, ok ++ pr.2.filter (fun m => !m.isErr),
          er ++ pr.2.filterMap Msg.errText)) := by
  rw [runStep]
  cases applyChange dbLin r tp c with
  | none => rfl
  | some pr => rfl

theorem runBatchFrom_cons (dbLin : Option ℚ → ℚ) (tp : List ℕ)
    (st : Elem × List Msg × List String) (c : Change) (cs : List Change) :
    runBatchFrom dbLin tp st (c :: cs) =
      match runStep dbLin tp st c with
      | none => none
      | some st' => runBatchFrom dbLin tp st' cs := rfl

theorem runBatchFrom_append (dbLin : Option ℚ → ℚ) (tp : List ℕ)
    (l1 l2 : List Change) : ∀ st,
    runBatchFrom dbLin tp st (l1 ++ l2) =
      match runBatchFrom dbLin tp st l1 with
      | none => none
      | some st' => runBatchFrom dbLin tp st' l2 := by
  induction l1 with
  | nil => intro st; rfl
  | cons c l1 ih =>
    intro st
    rw [List.cons_append, runBatchFrom_cons, runBatchFrom_cons]
    cases runStep dbLin tp st c with
    | none => rfl
    | some st' => exact ih st'

theorem runBatchFrom_acc (dbLin : Option ℚ → ℚ) (tp : List ℕ)
    (cs : List Change) : ∀ r ok er,
    runBatchFrom dbLin tp (r, ok, er) cs =
      (runBatchFrom dbLin tp (r, [], []) cs).map
        (fun s => (s.1, ok ++ s.2.1, er ++ s.2.2)) := by
  induction cs with
  | nil => intro r ok er; simp [runBatchFrom]
  | cons c cs ih =>
    intro r ok er
    rw [runBatchFrom_cons, runBatchFrom_cons, runStep_eq, runStep_eq]
    cases happ : applyChange dbLin r tp c with
    | none => rfl
    | some pr =>
      simp only [Option.map_some']
      rw [ih pr.1 (ok ++ _) (er ++ _)]
      simp only [List.nil_append]
      rw [ih pr.1 (pr.2.filter _) (pr.2.filterMap _)]
      cases runBatchFrom dbLin tp (pr.1, [], []) cs with
      | none => rfl
      | some s => simp [List.append_assoc]

/- ### Power bounds for the codec floor -/

set_option exponentiation.threshold 100000 in
set_option maxRecDepth 10000 in
theorem pow_bound_nat : (10:ℕ)^(70001:ℕ) ≤ (3163:ℕ)^(20000:ℕ) := by decide

set_option exponentiation.threshold 100000 in
set_option maxRecDepth 10000 in
theorem rpow_bound : (10:ℝ) ^ ((10001:ℝ)/20000) ≤ (3163:ℝ)/1000 := by
  have h10 : (0:ℝ) ≤ 10 := by norm_num
  have ha : (0:ℝ) ≤ (10:ℝ) ^ ((10001:ℝ)/20000) := Real.rpow_nonneg h10 _
  have hb : (0:ℝ) ≤ (3163:ℝ)/1000 := by norm_num
  rw [← pow_le_pow_iff_left₀ ha hb (by norm_num : (20000:ℕ) ≠ 0)]
  have hpow : ((10:ℝ) ^ ((10001:ℝ)/20000)) ^ (20000:ℕ) = (10:ℝ) ^ (10001:ℕ) := by
    rw [← Real.rpow_natCast ((10:ℝ) ^ ((10001:ℝ)/20000)) 20000,
      ← Real.rpow_mul h10, show ((10001:ℝ)/20000) * (20000:ℕ) = ((10001:ℕ):ℝ) by
        push_cast; ring, Real.rpow_natCast]
  rw [hpow, div_pow, le_div_iff₀ (by positivity : (0:ℝ) < (1000:ℝ)^(20000:ℕ))]
  calc (10:ℝ)^(10001:ℕ) * (1000:ℝ)^(20000:ℕ)
        = (10:ℝ)^(10001:ℕ) * ((10:ℝ)^(3:ℕ))^(20000:ℕ) := by norm_num
      _ = (10:ℝ)^(70001:ℕ) := by rw [← pow_mul, ← pow_add]
      _ ≤ (3163:ℝ)^(20000:ℕ) := by exact_mod_cast Nat.cast_le.mpr pow_bound_nat

/- ### Claim C2: partial-failure isolation -/

/-- Claim C2: in a batch where one request targets a nonexistent track (no name match or occurrence index out of range), that request changes nothing: it yields exactly one "ERROR: ..." line naming the track, the batch run equals the run of the remaining requests except for that error line, and no other request is aborted or rolled back. -/
theorem c2_partial_failure_isolation (dbLin : Option ℚ → ℚ) (root r1 tracksEl : Elem) (tp : List ℕ)
    (c : Change) (pre post : List Change) (ok1 : List Msg) (er1 : List String)
    (hnm : ¬(String.mk (c.track_name.data.map Char.toUpper) = "MASTER" ∨
        String.mk (c.track_name.data.map Char.toUpper) = "MAIN"))
    (hnr : ¬(prefixOfChars "RETURN:".data
        (String.mk (c.track_name.data.map Char.toUpper)).data = true))
    (hpre : runBatchFrom dbLin tp (root, [], []) pre = some (r1, ok1, er1))
    (htr : subAt r1 tp = some tracksEl)
    (hfail : (findTracksByName tracksEl c.track_name c.track_type).length ≤
        c.track_index) :
    ∃ msg : String,
      (msg = "ERROR: Could not find track '" ++ c.track_name ++ "'" ∨
       msg = "ERROR: Track '" ++ c.track_name ++ "' index " ++
         intStr c.track_index ++ " out of range (found " ++
         intStr (findTracksByName tracksEl c.track_name c.track_type).length
         ++ ")") ∧
      applyChange dbLin r1 tp c = some (r1, [.err msg]) ∧
      runBatchFrom dbLin tp (root, [], []) (pre ++ c :: post) =
        runBatchFrom dbLin tp (r1, ok1, er1 ++ [msg]) post ∧
      runBatchFrom dbLin tp (root, [], []) (pre ++ post) =
        runBatchFrom dbLin tp (r1, ok1, er1) post ∧
      (∀ r2 ok2 er2,
        runBatchFrom dbLin tp (r1, ok1, er1) post = some (r2, ok2, er2) →
        runBatchFrom dbLin tp (r1, ok1, er1 ++ [msg]) post =
          some (r2, ok2, er1 ++ msg :: er2.drop er1.length)) := by
  have hget : (findTracksByName tracksEl c.track_name c.track_type).get?
      c.track_index = none := by
    rw [List.get?_eq_getElem?]
    exact List.getElem?_eq_none hfail
  obtain ⟨msg, hdisj, hres⟩ : ∃ msg : String,
      (msg = "ERROR: Could not find track '" ++ c.track_name ++ "'" ∨
       msg = "ERROR: Track '" ++ c.track_name ++ "' index " ++
         intStr c.track_index ++ " out of range (found " ++
         intStr (findTracksByName tracksEl c.track_name c.track_type).length
         ++ ")") ∧
      resolveTrack r1 tp c = some (.error msg) := by
    refine ⟨if (findTracksByName tracksEl c.track_name c.track_type).isEmpty
        then "ERROR: Could not find track '" ++ c.track_name ++ "'"
        else "ERROR: Track '" ++ c.track_name ++ "' index " ++
          intStr c.track_index ++ " out of range (found " ++
          intStr (findTracksByName tracksEl c.track_name c.track_type).length
          ++ ")", ?_, ?_⟩
    · split
      · exact Or.inl rfl
      · exact Or.inr rfl
    · simp only [resolveTrack, if_neg hnm, if_neg hnr, htr, hget]
      split <;> rfl
  have happ : applyChange dbLin r1 tp c = some (r1, [.err msg]) := by
    simp only [applyChange, hres]
  refine ⟨msg, hdisj, happ, ?_, ?_, ?_⟩
  · rw [runBatchFrom_append, hpre]
    show runBatchFrom dbLin tp (r1, ok1, er1) (c :: post) = _
    rw [runBatchFrom_cons, runStep_eq, happ]
    simp [Msg.isErr, Msg.errText]
  · rw [runBatchFrom_append, hpre]
  · intro r2 ok2 er2 h2
    rw [runBatchFrom_acc] at h2 ⊢
    cases hbase : runBatchFrom dbLin tp (r1, [], []) post with
    | none => rw [hbase] at h2; cases h2
    | some s =>
      rw [hbase] at h2
      simp only [Option.map_some', Option.some.injEq, Prod.mk.injEq] at h2
      obtain ⟨h_r, h_ok, h_er⟩ := h2
      subst h_r h_ok
      rw [← h_er]
      simp [List.drop_left]

/- ### Claim C5: dB round-trip -/

/-- Counterexample to claim C5 as stated: x = -69.999 is a finite dB value strictly above -70, yet the round trip vol_to_db (db_to_linear x) returns none (negative infinity), not a value close to x: the code compares against the floor 0.0003163, which 10^(-69.999/20) does not exceed. -/
theorem c5_floor_counterexample :
    (-70 : ℝ) < -69.999 ∧ vol_to_db (db_to_linear (some (-69.999))) = none := by
  constructor
  · norm_num
  · have hdb : db_to_linear (some (-69.999 : ℝ)) = (10:ℝ) ^ ((-69.999:ℝ)/20) := by
      simp only [db_to_linear]
      rw [if_neg (by norm_num)]
    rw [hdb, vol_to_db, if_pos]
    have key : (10:ℝ) ^ ((-69.999:ℝ)/20) =
        (10:ℝ)^((10001:ℝ)/20000) * ((10:ℝ)^(((4:ℕ)):ℝ))⁻¹ := by
      rw [← Real.rpow_neg (by norm_num), ← Real.rpow_add (by norm_num)]
      norm_num
    rw [key]
    have h4 : ((10:ℝ)^(((4:ℕ)):ℝ))⁻¹ = (10000:ℝ)⁻¹ := by
      rw [Real.rpow_natCast]; norm_num
    rw [h4, volFloorQ]
    push_cast
    calc (10:ℝ)^((10001:ℝ)/20000) * (10000:ℝ)⁻¹
        ≤ (3163:ℝ)/1000 * (10000:ℝ)⁻¹ :=
          mul_le_mul_of_nonneg_right rpow_bound (by norm_num)
      _ = 3163/10^7 := by norm_num

/-- Claim C5 (amended): the round trip vol_to_db (db_to_linear x) = x holds exactly when db_to_linear x exceeds the vol_to_db floor 0.0003163 (strictly above about -69.9991 dB, not -70); and for x at most -70 or undefined, db_to_linear returns the silence floor 0.0003162277571 exactly. -/
theorem c5_roundtrip (x : ℝ) :
    ((volFloorQ : ℝ) < db_to_linear (some x) →
      vol_to_db (db_to_linear (some x)) = some x) ∧
    (x ≤ -70 → db_to_linear (some x) = (silenceFloorQ : ℝ)) ∧
    db_to_linear none = (silenceFloorQ : ℝ) := by
  have hfl : (silenceFloorQ : ℝ) < (volFloorQ : ℝ) := by
    exact_mod_cast silenceFloor_lt_volFloor
  refine ⟨?_, ?_, rfl⟩
  · intro h
    by_cases hx : x ≤ -70
    · exfalso
      have hz : db_to_linear (some x) = (silenceFloorQ : ℝ) := by
        simp only [db_to_linear]; rw [if_pos hx]
      rw [hz] at h
      linarith
    · have hdb : db_to_linear (some x) = (10:ℝ) ^ (x/20) := by
        simp only [db_to_linear]; rw [if_neg hx]
      rw [hdb] at h ⊢
      rw [vol_to_db, if_neg (not_le.mpr h),
        Real.logb_rpow (by norm_num) (by norm_num)]
      have hh : 20 * (x/20) = x := by ring
      rw [hh]
  · intro hx
    simp only [db_to_linear]; rw [if_pos hx]

/-- Witness for C5 at x = 0: db_to_linear 0 = 1 is above the floor and round-trips to 0. -/
theorem c5_roundtrip_witness :
    (volFloorQ : ℝ) < db_to_linear (some 0) ∧
    vol_to_db (db_to_linear (some 0)) = some 0 := by
  have h1 : db_to_linear (some (0:ℝ)) = 1 := by
    simp only [db_to_linear]
    rw [if_neg (by norm_num), show (0:ℝ)/20 = 0 by norm_num, Real.rpow_zero]
  have h2 : (volFloorQ : ℝ) < 1 := by
    rw [volFloorQ]; push_cast; norm_num
  exact ⟨by rw [h1]; exact h2, (c5_roundtrip 0).1 (by rw [h1]; exact h2)⟩

/- ### Claim C6: unparseable pan text aborts the run -/

/-- Claim C6 (code bug): a pan request whose value is unparseable text does not produce a per-request error; float() raises an uncaught ValueError (modify_als.py line 245), `applyChange` is `none` and the whole batch run dies, contrary to the per-request EncodingFailure the spec describes. -/
theorem c6_unparsable_pan_aborts (dbLin : Option ℚ → ℚ) (root : Elem) (tp tpath : List ℕ)
    (c : Change) (s : String)
    (hres : resolveTrack root tp c = some (.ok tpath))
    (htarget : c.target = "pan")
    (hval : c.value = some (.str s))
    (hparse : panParseChars s.data = none) :
    applyChange dbLin root tp c = none ∧
    ∀ oks errs rest,
      runBatchFrom dbLin tp (root, oks, errs) (c :: rest) = none := by
  have h1 : applyChange dbLin root tp c = none := by
    simp only [applyChange, hres]
    split
    · rfl
    · simp only [htarget, applyPan, hval, pan_str_to_value, hparse]
      simp
  refine ⟨h1, fun oks errs rest => ?_⟩
  rw [runBatchFrom, runStep]
  simp only [h1]

/- ### Claim C8: send index bounds -/

/-- Claim C8: a send request with send_index out of range is a silent no-op (document unchanged, no description, no error); an in-range request writes exactly the addressed send holder Manual Value and every other send holder subtree is untouched. -/
theorem c8_send_index_bounds (dbLin : Option ℚ → ℚ) (root tEl sendsEl : Elem)
    (tp tpath mrel spath : List ℕ) (c : Change) (q : ℚ)
    (hres : resolveTrack root tp c = some (.ok tpath))
    (htarget : c.target = "send")
    (hval : c.value = some (.num q))
    (htEl : subAt root tpath = some tEl)
    (hmix : findET tEl true ["DeviceChain", "Mixer"] = some mrel)
    (hsends : findETAt root (tpath ++ mrel) false ["Sends"] = some spath)
    (hsendsEl : subAt root spath = some sendsEl) :
    (sendsEl.children.length ≤ c.send_index →
      applyChange dbLin root tp c = some (root, [])) ∧
    (∀ holder smpath manEl oldq,
      sendsEl.children[c.send_index]? = some holder →
      findETAt root (spath ++ [c.send_index]) false ["Send", "Manual"] =
        some smpath →
      subAt root smpath = some manEl →
      (match getAttr manEl "Value" with
       | none => some silenceFloorQ
       | some v => parseFloatAttr v) = some oldq →
      applyChange dbLin root tp c =
        some (modifyAt root smpath
            (fun x => setAttr x "Value" (.num (dbLin (some q)))),
          [.sendMsg c.track_name c.send_index oldq q]) ∧
      ∀ j, j ≠ c.send_index →
        subAt (modifyAt root smpath
            (fun x => setAttr x "Value" (.num (dbLin (some q)))))
          (spath ++ [j]) = subAt root (spath ++ [j])) := by
  constructor
  · intro hlen
    simp only [applyChange, hres, htEl, hmix, htarget, applySend, hval,
      hsends, hsendsEl]
    have h0 : sendsEl.children[c.send_index]? = none :=
      List.getElem?_eq_none hlen
    simp [h0]
  · intro holder smpath manEl oldq hhold hsm hman hold
    have happ : applyChange dbLin root tp c =
        some (modifyAt root smpath
            (fun x => setAttr x "Value" (.num (dbLin (some q)))),
          [.sendMsg c.track_name c.send_index oldq q]) := by
      simp only [applyChange, hres, htEl, hmix, htarget, applySend, hval,
        hsends, hsendsEl, hhold, hsm, hman, hold]
      simp [hhold, jnum]
    refine ⟨happ, fun j hj => ?_⟩
    obtain ⟨e, r, hsub, hfind, hq⟩ := findETAt_shape root (spath ++ [c.send_index])
      false ["Send", "Manual"] smpath hsm
    subst hq
    rw [List.append_assoc]
    have := subAt_modifyAt_diverge root spath c.send_index j r []
      (fun x => setAttr x "Value" (.num (dbLin (some q)))) (fun h => hj h.symm)
    simpa using this

/- ### Claim C10: missing Manual holder is a silent no-op -/

/-- Claim C10: a volume, group_volume or pan request on a resolved track whose mixer lacks the Volume/Manual resp. Pan/Manual holder returns the document unchanged with an empty message list: no success is recorded, no error is reported, and the batch continues as if the request were skipped. -/
theorem c10_missing_manual_silent (dbLin : Option ℚ → ℚ) (root tEl : Elem) (tp tpath mrel : List ℕ)
    (c : Change)
    (hres : resolveTrack root tp c = some (.ok tpath))
    (htEl : subAt root tpath = some tEl)
    (hmix : findET tEl true ["DeviceChain", "Mixer"] = some mrel) :
    ((c.target = "volume" ∨ c.target = "group_volume") →
      (c.value = none ∨ ∃ q, c.value = some (.num q)) →
      findETAt root (tpath ++ mrel) false ["Volume", "Manual"] = none →
      applyChange dbLin root tp c = some (root, [])) ∧
    (c.target = "pan" →
      (∃ pv, pan_str_to_value c.value = some pv) →
      findETAt root (tpath ++ mrel) false ["Pan", "Manual"] = none →
      applyChange dbLin root tp c = some (root, [])) ∧
    (applyChange dbLin root tp c = some (root, []) →
      ∀ oks errs rest,
        runStep dbLin tp (root, oks, errs) c = some (root, oks, errs) ∧
        runBatchFrom dbLin tp (root, oks, errs) (c :: rest) =
          runBatchFrom dbLin tp (root, oks, errs) rest) := by
  refine ⟨?_, ?_, ?_⟩
  · rintro ht hv hfnd
    simp only [applyChange, hres, htEl, hmix]
    rcases ht with ht | ht
    · simp only [ht]
      rcases hv with hv | ⟨q, hv⟩ <;>
        simp [applyVolume, hv, hfnd]
    · simp only [ht]
      rcases hv with hv | ⟨q, hv⟩ <;>
        simp [applyVolume, hv, hfnd]
  · rintro ht ⟨pv, hpv⟩ hfnd
    simp only [applyChange, hres, htEl, hmix, ht]
    simp [applyPan, hpv, hfnd]
  · intro h oks errs rest
    have hs : runStep dbLin tp (root, oks, errs) c = some (root, oks, errs) := by
      rw [runStep]
      simp [h, Msg.isErr]
    exact ⟨hs, by rw [runBatchFrom, hs]⟩


/- ### Claim C7: the two parameter storage forms -/

theorem findTagged_modify (t : String) (f : Elem → Elem) :
    ∀ (cs : List Elem) (n i : ℕ) (x : Elem),
    (List.enumFrom n cs).find? (fun ic => ic.2.tag = t) = some (i, x) →
    (f x).tag = x.tag →
    n ≤ i ∧ (List.enumFrom n (listModify cs (i - n) f)).find?
        (fun ic => ic.2.tag = t) = some (i, f x) := by
  intro cs
  induction cs with
  | nil => intro n i x h; simp [List.enumFrom] at h
  | cons c cs ih =>
    intro n i x h hf
    rw [List.enumFrom] at h
    by_cases hc : c.tag = t
    · rw [List.find?_cons_of_pos _ (by simpa using hc)] at h
      simp only [Option.some.injEq, Prod.mk.injEq] at h
      obtain ⟨hi, hx⟩ := h
      subst hi; subst hx
      refine ⟨le_refl _, ?_⟩
      rw [Nat.sub_self, listModify, List.enumFrom,
        List.find?_cons_of_pos _ (by simpa [hf] using hc)]
    · rw [List.find?_cons_of_neg _ (by simpa using hc)] at h
      obtain ⟨hle, hrec⟩ := ih (n + 1) i x h hf
      refine ⟨by omega, ?_⟩
      have hs : i - n = (i - (n + 1)) + 1 := by omega
      rw [hs, listModify, List.enumFrom,
        List.find?_cons_of_neg _ (by simpa using hc), hrec]

theorem firstChildTagged_listModify {e : Elem} {t : String} {i : ℕ} {x : Elem}
    (f : Elem → Elem) (h : firstChildTagged e t = some (i, x))
    (hf : (f x).tag = x.tag) :
    firstChildTagged (.mk e.tag e.attrs (listModify e.children i f)) t =
      some (i, f x) := by
  rw [firstChildTagged] at h ⊢
  have := (findTagged_modify t f e.children 0 i x (by simpa [List.enum] using h)
    hf).2
  simpa [List.enum, Elem.children] using this

theorem firstChildTagged_tag {e : Elem} {t : String} {it : ℕ × Elem}
    (h : firstChildTagged e t = some it) : it.2.tag = t := by
  have := List.find?_some h
  simpa using this

theorem firstChildTagged_setAttr (e : Elem) (k : String) (v : AttrVal)
    (t : String) : firstChildTagged (setAttr e k v) t = firstChildTagged e t := by
  cases e; rfl

/-- Claim C7: reading a parameter returns the nested "Manual" child's Value
when that child is present and otherwise the element's bare Value
attribute; writing sets the Manual child's Value when present (and the
value then reads back), otherwise sets the bare Value attribute (and reads
back), and fails exactly when neither form exists. -/
theorem c7_param_storage_forms (e : Elem) (name : String) (v : AttrVal)
    (it : ℕ × Elem) (hit : firstChildTagged e name = some it) :
    (∀ jm, firstChildTagged it.2 "Manual" = some jm →
      get_param_value e name = getAttr jm.2 "Value" ∧
      ∃ e', set_param_value e [name] v = some e' ∧
        get_param_value e' name = some v) ∧
    (firstChildTagged it.2 "Manual" = none → hasAttr it.2 "Value" = true →
      get_param_value e name = getAttr it.2 "Value" ∧
      ∃ e', set_param_value e [name] v = some e' ∧
        get_param_value e' name = some v) ∧
    (firstChildTagged it.2 "Manual" = none → hasAttr it.2 "Value" = false →
      set_param_value e [name] v = none) := by
  refine ⟨?_, ?_, ?_⟩
  · intro jm hm
    constructor
    · simp only [get_param_value, hit, hm]
    · refine ⟨Elem.mk e.tag e.attrs (listModify e.children it.1 (fun _ =>
        Elem.mk it.2.tag it.2.attrs (listModify it.2.children jm.1 (fun _ =>
          setAttr jm.2 "Value" v)))), ?_, ?_⟩
      · simp only [set_param_value, hit, hm]
      · have h1 := firstChildTagged_listModify
          (fun _ => Elem.mk it.2.tag it.2.attrs
            (listModify it.2.children jm.1 (fun _ => setAttr jm.2 "Value" v)))
          hit rfl
        simp only [get_param_value, h1]
        have h2 := firstChildTagged_listModify
          (e := it.2) (fun _ => setAttr jm.2 "Value" v) hm
          (by cases hj : jm.2; rfl)
        simp only [h2, getAttr_setAttr_self]
  · intro hm hbare
    constructor
    · simp only [get_param_value, hit, hm]
    · refine ⟨Elem.mk e.tag e.attrs (listModify e.children it.1 (fun _ =>
        setAttr it.2 "Value" v)), ?_, ?_⟩
      · simp only [set_param_value, hit, hm, if_pos hbare]
      · have h1 := firstChildTagged_listModify
          (fun _ => setAttr it.2 "Value" v) hit (by cases hc : it.2; rfl)
        simp only [get_param_value, h1]
        rw [firstChildTagged_setAttr, hm, getAttr_setAttr_self]
  · intro hm hbare
    simp only [set_param_value, hit, hm, hbare]
    simp

/- ### Claim C3: donor-clone isolation for add_device -/

theorem mem_iterAllL_of_mem {c x : Elem} : ∀ cs : List Elem,
    c ∈ cs → x ∈ iterAll c → x ∈ iterAllL cs := by
  intro cs
  induction cs with
  | nil => intro h; cases h
  | cons d ds ih =>
    intro hc hx
    rw [iterAllL, List.mem_append]
    rcases List.mem_cons.1 hc with rfl | hmem
    · exact Or.inl hx
    · exact Or.inr (ih hmem hx)

theorem self_mem_iterAll (e : Elem) : e ∈ iterAll e := by
  cases e with
  | mk t a cs => rw [iterAll]; exact List.mem_cons_self _ _

theorem mem_iterAll_trans : ∀ (p : List ℕ) (e y x : Elem),
    subAt e p = some y → x ∈ iterAll y → x ∈ iterAll e := by
  intro p
  induction p with
  | nil =>
    intro e y x h hx
    rw [subAt] at h
    rw [← Option.some.inj h] at hx
    exact hx
  | cons i p ih =>
    intro e y x h hx
    rw [subAt] at h
    cases hg : e.children.get? i with
    | none => rw [hg] at h; cases h
    | some ch =>
      rw [hg] at h
      have h1 : x ∈ iterAll ch := ih ch y x h hx
      have h2 : ch ∈ e.children := List.get?_mem hg
      cases e with
      | mk t a cs =>
        rw [iterAll]
        exact List.mem_cons_of_mem _
          (mem_iterAllL_of_mem cs (by simpa using h2) h1)

theorem mem_iterAll_of_subAt {p : List ℕ} {e x : Elem}
    (h : subAt e p = some x) : x ∈ iterAll e :=
  mem_iterAll_trans p e x x h (self_mem_iterAll x)

set_option maxRecDepth 10000 in
theorem c3_pairwise (dbLin : Option ℚ → ℚ) (dt : Option String)
    (htag : dt = some "Eq8" ∨ dt = some "Compressor2") :
    List.Pairwise (fun o1 o2 => ∃ j, j < o1.1.length ∧ j < o2.1.length ∧
      o1.1.get? j ≠ o2.1.get? j)
      (deviceResetOps dbLin dt ++ [(["On", "Manual"], AttrVal.str "true")]) := by
  have key : ∀ l : List (List String × AttrVal),
      List.Pairwise (fun s1 s2 => ∃ j, j < s1.length ∧ j < s2.length ∧
        s1.get? j ≠ s2.get? j) (l.map Prod.fst) →
      List.Pairwise (fun o1 o2 => ∃ j, j < o1.1.length ∧ j < o2.1.length ∧
        o1.1.get? j ≠ o2.1.get? j) l :=
    fun l h => List.pairwise_map.1 h
  rcases htag with rfl | rfl
  · refine key _ ?_
    rw [show deviceResetOps dbLin (some "Eq8") = eq8ResetOps from rfl]
    with_unfolding_all decide
  · refine key _ ?_
    rw [show (deviceResetOps dbLin (some "Compressor2") ++
        [(["On", "Manual"], AttrVal.str "true")]).map Prod.fst =
      [["Threshold", "Manual"], ["Ratio", "Manual"], ["Attack", "Manual"],
       ["Release", "Manual"], ["DryWet", "Manual"],
       ["GainCompensation", "Manual"], ["On", "Manual"]] from rfl]
    with_unfolding_all decide

/-- Claim C3: an add_device request for a device type with a registered
resetter (Eq8, Compressor2) produces a clone whose reset parameters hold
exactly the registered default values, whatever the donor's current
values; the donor subtree itself still occurs verbatim in the resulting
document. -/
theorem c3_donor_clone_isolation (dbLin : Option ℚ → ℚ)
    (root tEl devicesEl donor : Elem)
    (tp tpath dpath donorPath : List ℕ) (c : Change)
    (hres : resolveTrack root tp c = some (.ok tpath))
    (htEl : subAt root tpath = some tEl)
    (htarget : c.target = "add_device")
    (htag : c.device_tag = some "Eq8" ∨ c.device_tag = some "Compressor2")
    (hparams : c.params = [])
    (hdonor : find_donor_device root c.device_tag = some donor)
    (hdpath : findETAt root tpath false
      ["DeviceChain", "DeviceChain", "Devices"] = some dpath)
    (hdevEl : subAt root dpath = some devicesEl)
    (hdonorPath : subAt root donorPath = some donor)
    (hnotanc : ∀ r, dpath ≠ donorPath ++ r) :
    ∃ newDev root',
      newDev = (deviceResetOps dbLin c.device_tag ++
          [(["On", "Manual"], AttrVal.str "true")]).foldl
          (fun acc o => setManualIfFound acc o.1 o.2)
          (remapIds donor (find_max_id root + 1)).1 ∧
      root' = modifyAt root dpath
          (fun d => .mk d.tag d.attrs (pyInsert c.position newDev d.children)) ∧
      applyChange dbLin root tp c = some (root',
        [.addMsg c.track_name
          (match c.device_name with
           | some s => s
           | none => pyShow c.device_tag)
          (decide (c.position = -1 ∨
            (devicesEl.children.length : ℤ) ≤ c.position))
          c.position c.params]) ∧
      (∀ o ∈ deviceResetOps dbLin c.device_tag, ∀ p,
        findET (remapIds donor (find_max_id root + 1)).1 false o.1 = some p →
        getValueAt newDev p = some o.2) ∧
      donor ∈ iterAll root' := by
  refine ⟨_, _, rfl, rfl, ?_, ?_, ?_⟩
  · -- the applyChange equation
    have happ : applyChange dbLin root tp c =
        applyAddDevice dbLin root c.track_name tpath c := by
      simp only [applyChange, hres, htEl, htarget]
      simp
    rw [happ]
    have hclone : ∀ (ops : List (List String × AttrVal)) (x : Elem),
        (ops ++ [(["On", "Manual"], AttrVal.str "true")]).foldl
          (fun acc o => setManualIfFound acc o.1 o.2) x =
        setManualIfFound
          (ops.foldl (fun acc o => setManualIfFound acc o.1 o.2) x)
          ["On", "Manual"] (.str "true") := by
      intro ops x; rw [List.foldl_append]; rfl
    rcases htag with htag | htag
    · rw [htag] at hdonor
      simp only [applyAddDevice, htag, hdonor, hparams, hdpath, hdevEl,
        applyParamsNew, hclone]
      rfl
    · rw [htag] at hdonor
      simp only [applyAddDevice, htag, hdonor, hparams, hdpath, hdevEl,
        applyParamsNew, hclone]
      rw [show ∀ x, (deviceResetOps dbLin (some "Compressor2")).foldl
          (fun acc o => setManualIfFound acc o.1 o.2) x =
          reset_compressor_defaults dbLin x from
        fun x => (reset_comp_eq_fold dbLin x).symm]
  · -- registered default values at the found parameter paths
    intro o ho p hf
    exact ops_fold_value _ _ (c3_pairwise dbLin c.device_tag htag) o
      (List.mem_append_left _ ho) p hf
  · -- the donor subtree still occurs in the result
    set nd := (deviceResetOps dbLin c.device_tag ++
        [(["On", "Manual"], AttrVal.str "true")]).foldl
      (fun acc o => setManualIfFound acc o.1 o.2)
      (remapIds donor (find_max_id root + 1)).1 with hnd
    rcases path_trichotomy donorPath dpath with ⟨r, hr⟩ | ⟨x, r, hr⟩ | hdiv
    · exact absurd hr (hnotanc r)
    · -- the donor sits inside the Devices element
      have hsub2 : subAt devicesEl (x :: r) = some donor := by
        have := subAt_append root dpath (x :: r)
        rw [← hr, hdonorPath, hdevEl] at this
        exact (Option.some_bind _ _ ▸ this).symm
      have hself := subAt_modifyAt_self root devicesEl dpath
        (fun d => Elem.mk d.tag d.attrs (pyInsert c.position nd d.children))
        hdevEl
      rw [subAt] at hsub2
      cases hg : devicesEl.children.get? x with
      | none => rw [hg] at hsub2; cases hsub2
      | some cx =>
        rw [hg] at hsub2
        have hmemcx : cx ∈ devicesEl.children := List.get?_mem hg
        obtain ⟨l1, l2, hins, hsplit⟩ :=
          pyInsert_split c.position nd devicesEl.children
        have hmemcx2 : cx ∈ l1 ++ nd :: l2 := by
          rw [← hsplit] at hmemcx
          rcases List.mem_append.1 hmemcx with h | h
          · exact List.mem_append_left _ h
          · exact List.mem_append_right _ (List.mem_cons_of_mem _ h)
        have hdin : donor ∈ iterAll cx := mem_iterAll_of_subAt hsub2
        refine mem_iterAll_trans dpath _ _ donor hself ?_
        rw [iterAll, hins]
        exact List.mem_cons_of_mem _ (mem_iterAllL_of_mem _ hmemcx2 hdin)
    · -- the donor diverges from the insertion point
      obtain ⟨com, i, j, p2, q2, hp, hq, hij⟩ := hdiv
      have hfr : subAt (modifyAt root dpath
          (fun d => Elem.mk d.tag d.attrs (pyInsert c.position nd d.children)))
          donorPath = some donor := by
        rw [hp, hq]
        rw [subAt_modifyAt_diverge root com j i q2 p2 _ (fun h => hij h.symm)]
        rw [← hp, hdonorPath]
      exact mem_iterAll_of_subAt hfr

/- ### Claim C1: decimal printing round-trip -/

theorem digitsFold_none : ∀ l : List Char,
    l.foldl
      (fun acc c =>
        match acc with
        | none => none
        | some n => if c.isDigit then some (10 * n + (c.toNat - 48)) else none)
      none = none := by
  intro l
  induction l with
  | nil => rfl
  | cons c cs ih => rw [List.foldl_cons]; exact ih

theorem digitsFold_append (l1 l2 : List Char) (a : ℕ) :
    digitsFold (l1 ++ l2) a =
      match digitsFold l1 a with
      | none => none
      | some m => digitsFold l2 m := by
  rw [digitsFold, List.foldl_append]
  rw [show (List.foldl
      (fun acc c =>
        match acc with
        | none => none
        | some n => if c.isDigit then some (10 * n + (c.toNat - 48)) else none)
      (some a) l1) = digitsFold l1 a from rfl]
  cases digitsFold l1 a with
  | none => exact digitsFold_none l2
  | some m => rfl

theorem digitsFold_append_some (l1 l2 : List Char) (a m : ℕ)
    (h : digitsFold l1 a = some m) :
    digitsFold (l1 ++ l2) a = digitsFold l2 m := by
  rw [digitsFold_append, h]

theorem natDigitsF_mem (f : ℕ) : ∀ n, n < f →
    ∀ c ∈ natDigitsF f n, ∃ d, d < 10 ∧ c = Char.ofNat (48 + d) := by
  induction f with
  | zero => intro n h; omega
  | succ f ih =>
    intro n hn c hc
    rw [natDigitsF] at hc
    by_cases h10 : n < 10
    · rw [if_pos h10] at hc
      exact ⟨n, h10, by simpa using hc⟩
    · rw [if_neg h10] at hc
      rcases List.mem_append.1 hc with h | h
      · exact ih (n / 10) (by omega) c h
      · exact ⟨n % 10, by omega, by simpa using h⟩

theorem natDigitsF_ne_nil (f n : ℕ) (h : n < f) : natDigitsF f n ≠ [] := by
  cases f with
  | zero => omega
  | succ f =>
    rw [natDigitsF]
    by_cases h10 : n < 10
    · rw [if_pos h10]; simp
    · rw [if_neg h10]; simp

theorem digit_char_val : ∀ d, d < 10 →
    (Char.ofNat (48 + d)).isDigit = true ∧
    (Char.ofNat (48 + d)).toNat - 48 = d ∧
    (Char.ofNat (48 + d)).isWhitespace = false ∧
    Char.ofNat (48 + d) ≠ '-' ∧ Char.ofNat (48 + d) ≠ '+' := by decide

theorem natDigitsF_fold (f : ℕ) : ∀ n a, n < f →
    digitsFold (natDigitsF f n) a =
      some (a * 10 ^ (natDigitsF f n).length + n) := by
  induction f with
  | zero => intro n a h; omega
  | succ f ih =>
    intro n a hn
    rw [natDigitsF]
    by_cases h10 : n < 10
    · rw [if_pos h10]
      obtain ⟨hd, hv, -⟩ := digit_char_val n h10
      rw [digitsFold, List.foldl_cons, List.foldl_nil]
      simp only [hd, if_true, hv]
      norm_num
      ring
    · rw [if_neg h10]
      rw [digitsFold_append_some _ _ _ _ (ih (n / 10) a (by omega))]
      obtain ⟨hd, hv, -⟩ := digit_char_val (n % 10) (by omega)
      rw [digitsFold, List.foldl_cons, List.foldl_nil]
      simp only [hd, if_true, hv]
      rw [List.length_append, List.length_singleton, pow_succ]
      norm_num
      have hmod : 10 * (n / 10) + n % 10 = n := by omega
      calc 10 * (a * 10 ^ (natDigitsF f (n / 10)).length + n / 10) + n % 10
          = a * (10 ^ (natDigitsF f (n / 10)).length * 10) +
            (10 * (n / 10) + n % 10) := by ring
        _ = a * (10 ^ (natDigitsF f (n / 10)).length * 10) + n := by rw [hmod]

theorem parseNatChars_natDigits (n : ℕ) :
    parseNatChars (natDigits n) = some n := by
  rw [parseNatChars, if_neg (by
    simpa [List.isEmpty_iff] using natDigitsF_ne_nil (n + 1) n (by omega))]
  rw [natDigits, natDigitsF_fold (n + 1) n 0 (by omega)]
  norm_num

theorem dropWhile_eq_self_of_none {α : Type} (p : α → Bool) :
    ∀ l : List α, (∀ c ∈ l, p c = false) → l.dropWhile p = l := by
  intro l
  induction l with
  | nil => intro _; rfl
  | cons c cs ih =>
    intro h
    rw [List.dropWhile_cons, h c (by simp)]
    simp

theorem trimChars_eq_self (l : List Char)
    (h : ∀ c ∈ l, c.isWhitespace = false) : trimChars l = l := by
  rw [trimChars, dropWhile_eq_self_of_none _ l h,
    dropWhile_eq_self_of_none _ l.reverse (fun c hc => h c (by simpa using hc)),
    List.reverse_reverse]

theorem natDigits_mem (n : ℕ) :
    ∀ c ∈ natDigits n, ∃ d, d < 10 ∧ c = Char.ofNat (48 + d) :=
  natDigitsF_mem (n + 1) n (by omega)

theorem parseIntChars_natDigits (n : ℕ) :
    parseIntChars (natDigits n) = some (n : ℤ) := by
  have htrim : trimChars (natDigits n) = natDigits n := by
    refine trimChars_eq_self _ (fun c hc => ?_)
    obtain ⟨d, hd, rfl⟩ := natDigits_mem n c hc
    exact (digit_char_val d hd).2.2.1
  cases hds : natDigits n with
  | nil => exact absurd hds (natDigitsF_ne_nil (n + 1) n (by omega))
  | cons c rest =>
    obtain ⟨d, hd, hc⟩ := natDigits_mem n c (by rw [hds]; simp)
    obtain ⟨-, -, -, hm, hp⟩ := digit_char_val d hd
    rw [hds] at htrim
    simp only [parseIntChars, htrim]
    rw [if_neg (by rw [hc]; exact hm), if_neg (by rw [hc]; exact hp)]
    rw [← hds, parseNatChars_natDigits]
    rfl

theorem parseIntAttr_intStr (m : ℤ) (hm : 0 ≤ m) :
    parseIntAttr (.str (intStr m)) = some m := by
  rw [parseIntAttr, intStr, intDigits, if_neg (by omega)]
  show parseIntChars (natDigits m.toNat) = some m
  rw [parseIntChars_natDigits]
  congr 1
  omega

theorem intStr_inj_nonneg (m1 m2 : ℤ) (h1 : 0 ≤ m1) (h2 : 0 ≤ m2)
    (h : intStr m1 = intStr m2) : m1 = m2 := by
  have e1 := parseIntAttr_intStr m1 h1
  have e2 := parseIntAttr_intStr m2 h2
  rw [h, e2] at e1
  exact (Option.some.inj e1).symm

theorem maxFold_ge : ∀ (l : List AttrVal) (m0 : ℤ),
    m0 ≤ l.foldl
      (fun m v => match parseIntAttr v with | some k => max m k | none => m)
      m0 := by
  intro l
  induction l with
  | nil => intro m0; exact le_refl _
  | cons v l ih =>
    intro m0
    rw [List.foldl_cons]
    refine le_trans ?_ (ih _)
    cases parseIntAttr v with
    | none => exact le_refl _
    | some k => exact le_max_left _ _

theorem maxFold_bound : ∀ (l : List AttrVal) (m0 : ℤ) (v : AttrVal)
    (k : ℤ), v ∈ l → parseIntAttr v = some k →
    k ≤ l.foldl
      (fun m v => match parseIntAttr v with | some k => max m k | none => m)
      m0 := by
  intro l
  induction l with
  | nil => intro m0 v k h; cases h
  | cons w l ih =>
    intro m0 v k hv hk
    rw [List.foldl_cons]
    rcases List.mem_cons.1 hv with rfl | hmem
    · rw [hk]
      refine le_trans (le_max_right m0 k) (maxFold_ge l _)
    · exact ih _ v k hmem hk

theorem find_max_id_nonneg (root : Elem) : 0 ≤ find_max_id root :=
  maxFold_ge (idList root) 0

theorem find_max_id_bound (root : Elem) (v : AttrVal) (k : ℤ)
    (hv : v ∈ idList root) (hk : parseIntAttr v = some k) :
    k ≤ find_max_id root :=
  maxFold_bound (idList root) 0 v k hv hk

theorem iterAllL_append : ∀ l l' : List Elem,
    iterAllL (l ++ l') = iterAllL l ++ iterAllL l' := by
  intro l
  induction l with
  | nil => intro l'; rfl
  | cons c cs ih =>
    intro l'
    rw [List.cons_append, iterAllL, iterAllL, ih, List.append_assoc]

theorem idList_mk (t : String) (a : List (String × AttrVal))
    (cs : List Elem) :
    idList (.mk t a cs) = (getAttr (.mk t a cs) "Id").toList ++
      (iterAllL cs).filterMap (fun x => getAttr x "Id") := by
  rw [idList, iterAll, List.filterMap_cons]
  cases getAttr (.mk t a cs) "Id" with
  | none => rfl
  | some v => rfl

theorem idsL_append (l l' : List Elem) :
    (iterAllL (l ++ l')).filterMap (fun x => getAttr x "Id") =
      (iterAllL l).filterMap (fun x => getAttr x "Id") ++
      (iterAllL l').filterMap (fun x => getAttr x "Id") := by
  rw [iterAllL_append, List.filterMap_append]

theorem idsL_cons (c : Elem) (cs : List Elem) :
    (iterAllL (c :: cs)).filterMap (fun x => getAttr x "Id") =
      idList c ++ (iterAllL cs).filterMap (fun x => getAttr x "Id") := by
  rw [iterAllL, List.filterMap_append, idList]

theorem listModify_split {α : Type} : ∀ (cs : List α) (i : ℕ) (ci : α),
    cs.get? i = some ci → ∃ u1 u2, cs = u1 ++ ci :: u2 ∧ u1.length = i ∧
      ∀ g, listModify cs i g = u1 ++ g ci :: u2 := by
  intro cs
  induction cs with
  | nil => intro i ci h; simp at h
  | cons c cs ih =>
    intro i ci h
    cases i with
    | zero =>
      rw [List.get?_cons_zero] at h
      obtain rfl : c = ci := Option.some.inj h
      exact ⟨[], cs, rfl, rfl, fun g => rfl⟩
    | succ j =>
      rw [List.get?_cons_succ] at h
      obtain ⟨u1, u2, hcs, hlen, hmod⟩ := ih j ci h
      refine ⟨c :: u1, u2, by rw [List.cons_append, ← hcs], by simp [hlen],
        fun g => ?_⟩
      rw [listModify, hmod g, List.cons_append]

theorem listModify_oob {α : Type} : ∀ (cs : List α) (i : ℕ),
    cs.get? i = none → ∀ g, listModify cs i g = cs := by
  intro cs
  induction cs with
  | nil => intro i _ g; rfl
  | cons c cs ih =>
    intro i h g
    cases i with
    | zero => simp at h
    | succ j =>
      rw [List.get?_cons_succ] at h
      rw [listModify, ih j h g]

theorem idList_modifyAt_insert : ∀ (p : List ℕ) (e t : Elem)
    (f : Elem → Elem) (z : Elem) (l1 l2 : List Elem),
    subAt e p = some t →
    f t = .mk t.tag t.attrs (l1 ++ z :: l2) →
    t.children = l1 ++ l2 →
    ∃ A B, idList e = A ++ B ∧
      idList (modifyAt e p f) = A ++ idList z ++ B := by
  intro p
  induction p with
  | nil =>
    intro e t f z l1 l2 hsub hf hch
    rw [subAt] at hsub
    obtain rfl := Option.some.inj hsub
    rw [modifyAt_nil, hf]
    cases e with
    | mk tg aa cc =>
      simp only [Elem.tag, Elem.attrs, Elem.children] at hf hch ⊢
      refine ⟨(getAttr (.mk tg aa cc) "Id").toList ++
        (iterAllL l1).filterMap (fun x => getAttr x "Id"),
        (iterAllL l2).filterMap (fun x => getAttr x "Id"), ?_, ?_⟩
      · rw [idList_mk, hch, idsL_append, List.append_assoc]
      · rw [idList_mk]
        have hgid : getAttr (Elem.mk tg aa (l1 ++ z :: l2)) "Id" =
            getAttr (Elem.mk tg aa cc) "Id" := rfl
        rw [hgid, idsL_append, idsL_cons]
        simp [List.append_assoc]
  | cons i p ih =>
    intro e t f z l1 l2 hsub hf hch
    cases e with
    | mk tg aa cc =>
      rw [subAt] at hsub
      simp only [Elem.children] at hsub
      cases hg : cc.get? i with
      | none => rw [hg] at hsub; cases hsub
      | some ci =>
        rw [hg] at hsub
        obtain ⟨A', B', hA, hB⟩ := ih ci t f z l1 l2 hsub hf hch
        obtain ⟨u1, u2, hcs, hlen, hmod⟩ := listModify_split cc i ci hg
        refine ⟨(getAttr (.mk tg aa cc) "Id").toList ++
          (iterAllL u1).filterMap (fun x => getAttr x "Id") ++ A',
          B' ++ (iterAllL u2).filterMap (fun x => getAttr x "Id"), ?_, ?_⟩
        · rw [idList_mk]
          conv_lhs => rw [hcs]
          rw [idsL_append, idsL_cons, hA]
          simp only [List.append_assoc]
          have hgid : getAttr (Elem.mk tg aa (u1 ++ ci :: u2)) "Id" =
              getAttr (Elem.mk tg aa cc) "Id" := rfl
          rw [hgid]
        · rw [modifyAt, hmod (fun c => modifyAt c p f), idList_mk]
          have hgid : getAttr (Elem.mk tg aa
              (u1 ++ modifyAt ci p f :: u2)) "Id" =
            getAttr (Elem.mk tg aa cc) "Id" := rfl
          rw [hgid, idsL_append, idsL_cons, hB]
          simp [List.append_assoc]

theorem find?_setAssoc_ne (a : List (String × AttrVal)) (k k' : String)
    (v : AttrVal) (hne : k' ≠ k) :
    (setAssoc a k v).find? (fun kv => kv.1 = k') =
      a.find? (fun kv => kv.1 = k') := by
  induction a with
  | nil =>
    rw [setAssoc]
    simp [List.find?, hne.symm]
  | cons kv rest ih =>
    rw [setAssoc]
    by_cases hk : kv.1 = k
    · rw [if_pos hk]
      rw [List.find?_cons, List.find?_cons]
      have h1 : ((k, v).1 = k') = False := by simp [hne.symm]
      have h2 : (kv.1 = k') = False := by simp [hk, hne.symm]
      simp only [h1, h2]
      simp
    · rw [if_neg hk]
      rw [List.find?_cons, List.find?_cons]
      cases hd : decide (kv.1 = k') with
      | true => simp [hd]
      | false => simp [hd, ih]

theorem getAttr_setAttr_ne (e : Elem) (k k' : String) (v : AttrVal)
    (hne : k' ≠ k) : getAttr (setAttr e k v) k' = getAttr e k' := by
  rw [setAttr, getAttr, getAttr]
  simp only [Elem.attrs]
  rw [find?_setAssoc_ne _ _ _ _ hne]

theorem idList_modifyAt_pres (f : Elem → Elem)
    (hid : ∀ x, getAttr (f x) "Id" = getAttr x "Id")
    (hch : ∀ x, (f x).children = x.children) :
    ∀ (p : List ℕ) (e : Elem), idList (modifyAt e p f) = idList e := by
  intro p
  induction p with
  | nil =>
    intro e
    rw [modifyAt_nil]
    cases hfe : f e with
    | mk t' a' cc' =>
      have hc : cc' = e.children := by
        have hx := hch e
        rw [hfe] at hx
        simpa using hx
      have hi : getAttr (.mk t' a' cc') "Id" = getAttr e "Id" := by
        rw [← hfe]; exact hid e
      cases e with
      | mk tg aa cc =>
        rw [idList_mk, idList_mk, hi]
        simp only [Elem.children] at hc
        rw [hc]
  | cons i p ih =>
    intro e
    cases e with
    | mk tg aa cc =>
      rw [modifyAt]
      cases hg : cc.get? i with
      | none =>
        rw [listModify_oob cc i hg]
      | some ci =>
        obtain ⟨u1, u2, hcs, hlen, hmod⟩ := listModify_split cc i ci hg
        rw [hmod, idList_mk, idList_mk]
        have hgid : getAttr (Elem.mk tg aa
            (u1 ++ modifyAt ci p f :: u2)) "Id" =
          getAttr (Elem.mk tg aa cc) "Id" := rfl
        have hsplit2 : (iterAllL cc).filterMap (fun x => getAttr x "Id") =
            (iterAllL u1).filterMap (fun x => getAttr x "Id") ++
            (idList ci ++
              (iterAllL u2).filterMap (fun x => getAttr x "Id")) := by
          rw [hcs, idsL_append, idsL_cons]
        rw [hgid, idsL_append, idsL_cons, ih ci, hsplit2]

theorem idList_setManualIfFound (e : Elem) (segs : List String)
    (v : AttrVal) : idList (setManualIfFound e segs v) = idList e := by
  rw [setManualIfFound]
  cases findET e false segs with
  | none => rfl
  | some p =>
    exact idList_modifyAt_pres _
      (fun x => getAttr_setAttr_ne x "Value" "Id" v (by decide))
      (fun x => rfl) p e

theorem idList_opsFold : ∀ (ops : List (List String × AttrVal)) (e : Elem),
    idList (ops.foldl (fun acc o => setManualIfFound acc o.1 o.2) e) =
      idList e := by
  intro ops
  induction ops with
  | nil => intro e; rfl
  | cons o rest ih =>
    intro e
    rw [List.foldl_cons, ih, idList_setManualIfFound]

theorem remapIdsL_ids : ∀ (cs : List Elem),
    (∀ c ∈ cs, ∀ n : ℤ, (remapIds c n).2 = n + (idList c).length ∧
      idList (remapIds c n).1 =
        (List.range (idList c).length).map
          (fun i : ℕ => AttrVal.str (intStr (n + (i : ℤ))))) →
    ∀ n : ℤ, (remapIdsL cs n).2 =
        n + ((iterAllL cs).filterMap (fun x => getAttr x "Id")).length ∧
      (iterAllL (remapIdsL cs n).1).filterMap (fun x => getAttr x "Id") =
        (List.range
            ((iterAllL cs).filterMap (fun x => getAttr x "Id")).length).map
          (fun i : ℕ => AttrVal.str (intStr (n + (i : ℤ)))) := by
  intro cs
  induction cs with
  | nil =>
    intro _ n
    constructor
    · show n = n + ((0 : ℕ) : ℤ); norm_num
    · rfl
  | cons c cs ih =>
    intro h n
    obtain ⟨h2c, h1c⟩ := h c (by simp) n
    obtain ⟨h2r, h1r⟩ := ih (fun d hd => h d (by simp [hd])) (remapIds c n).2
    rw [remapIdsL]
    constructor
    · show (remapIdsL cs (remapIds c n).2).2 = _
      rw [h2r, h2c, idsL_cons, List.length_append]
      push_cast
      ring
    · show (iterAllL ((remapIds c n).1 :: (remapIdsL cs (remapIds c n).2).1)).filterMap
          (fun x => getAttr x "Id") = _
      rw [idsL_cons, h1r, h1c, h2c, idsL_cons, List.length_append,
        List.range_add, List.map_append, List.map_map]
      congr 1
      apply List.map_congr_left
      intro i hi
      simp only [Function.comp_apply]
      congr 1
      push_cast
      ring

theorem remapIds_ids : ∀ (e : Elem) (n : ℤ),
    (remapIds e n).2 = n + (idList e).length ∧
    idList (remapIds e n).1 =
      (List.range (idList e).length).map
        (fun i : ℕ => AttrVal.str (intStr (n + (i : ℤ)))) := by
  intro e
  refine elem_ind (fun e => ∀ n : ℤ,
    (remapIds e n).2 = n + (idList e).length ∧
    idList (remapIds e n).1 =
      (List.range (idList e).length).map
        (fun i : ℕ => AttrVal.str (intStr (n + (i : ℤ))))) ?_ e
  intro t a cs ihc n
  rw [remapIds]
  by_cases hfa : (a.find? (fun kv => kv.1 = "Id")).isSome
  · simp only [hfa, if_true]
    obtain ⟨h2r, h1r⟩ := remapIdsL_ids cs ihc (n + 1)
    have hgid : getAttr (.mk t a cs) "Id" =
        (a.find? (fun kv => kv.1 = "Id")).map (fun kv => kv.2) := rfl
    obtain ⟨kv, hkv⟩ := Option.isSome_iff_exists.1 hfa
    have hlen : (idList (.mk t a cs)).length =
        ((iterAllL cs).filterMap (fun x => getAttr x "Id")).length + 1 := by
      rw [idList_mk, List.length_append, hgid, hkv]
      simp [Nat.add_comm]
    constructor
    · show (remapIdsL cs (n + 1)).2 = _
      rw [h2r, hlen]
      push_cast
      ring
    · show idList (.mk t (setAssoc a "Id" (.str (intStr n)))
          (remapIdsL cs (n + 1)).1) = _
      rw [idList_mk, h1r]
      have hset : getAttr (.mk t (setAssoc a "Id" (.str (intStr n)))
          (remapIdsL cs (n + 1)).1) "Id" = some (.str (intStr n)) := by
        show ((setAssoc a "Id" (.str (intStr n))).find?
            (fun kv => kv.1 = "Id")).map (fun kv => kv.2) = _
        rw [find?_setAssoc_self]
        rfl
      rw [hset, hlen, List.range_succ_eq_map, List.map_cons, List.map_map]
      simp only [Option.toList, List.singleton_append]
      congr 1
      · congr 1
        norm_num
      · apply List.map_congr_left
        intro i hi
        simp only [Function.comp_apply]
        congr 1
        push_cast
        ring
  · simp only [hfa, if_false]
    obtain ⟨h2r, h1r⟩ := remapIdsL_ids cs ihc n
    have hgid : getAttr (.mk t a cs) "Id" = none := by
      show ((a.find? (fun kv => kv.1 = "Id")).map (fun kv => kv.2)) = none
      rw [Option.not_isSome_iff_eq_none.1 hfa]
      rfl
    have hlen : (idList (.mk t a cs)).length =
        ((iterAllL cs).filterMap (fun x => getAttr x "Id")).length := by
      rw [idList_mk, hgid, List.length_append]
      simp
    constructor
    · show (remapIdsL cs n).2 = _
      rw [h2r, hlen]
    · show idList (.mk t a (remapIdsL cs n).1) = _
      rw [idList_mk, h1r, hlen]
      have hgid2 : getAttr (.mk t a (remapIdsL cs n).1) "Id" = none := hgid
      rw [hgid2]
      rfl

theorem nodup_middle {α : Type} (A B new : List α) (h1 : (A ++ B).Nodup)
    (h2 : new.Nodup) (h3 : ∀ v ∈ new, v ∉ A ++ B) :
    (A ++ new ++ B).Nodup := by
  rw [List.append_assoc]
  rw [List.nodup_append] at h1
  obtain ⟨hA, hB, hD⟩ := h1
  rw [List.nodup_append]
  refine ⟨hA, ?_, ?_⟩
  · rw [List.nodup_append]
    refine ⟨h2, hB, fun v hv hvB => h3 v hv (List.mem_append_right _ hvB)⟩
  · intro a haA ha2
    rcases List.mem_append.1 ha2 with hnew | hB2
    · exact h3 a hnew (List.mem_append_left _ haA)
    · exact hD haA hB2

theorem newIds_nodup (k : ℕ) (n : ℤ) (hn : 0 ≤ n) :
    ((List.range k).map
      (fun i : ℕ => AttrVal.str (intStr (n + (i : ℤ))))).Nodup := by
  refine List.Nodup.map ?_ (List.nodup_range k)
  intro i j hij
  simp only [AttrVal.str.injEq] at hij
  have h := intStr_inj_nonneg (n + i) (n + j) (by omega) (by omega) hij
  omega

theorem newIds_disjoint (root : Elem) (k : ℕ) (v : AttrVal)
    (hv : v ∈ idList root)
    (hmem : v ∈ (List.range k).map
      (fun i : ℕ => AttrVal.str (intStr (find_max_id root + 1 + (i : ℤ))))) :
    False := by
  obtain ⟨i, hi, hveq⟩ := List.mem_map.1 hmem
  have hparse : parseIntAttr v = some (find_max_id root + 1 + (i : ℤ)) := by
    rw [← hveq]
    exact parseIntAttr_intStr _ (by
      have := find_max_id_nonneg root
      omega)
  have hbound := find_max_id_bound root v _ hv hparse
  omega

theorem enumFrom_find?_get? {α : Type} (q : ℕ × α → Bool) :
    ∀ (cs : List α) (n i : ℕ) (x : α),
    (List.enumFrom n cs).find? q = some (i, x) →
    n ≤ i ∧ cs.get? (i - n) = some x := by
  intro cs
  induction cs with
  | nil => intro n i x h; simp [List.enumFrom] at h
  | cons c cs ih =>
    intro n i x h
    rw [List.enumFrom] at h
    cases hq : q (n, c) with
    | true =>
      rw [List.find?_cons_of_pos _ hq] at h
      simp only [Option.some.injEq, Prod.mk.injEq] at h
      obtain ⟨rfl, rfl⟩ := h
      exact ⟨le_refl _, by rw [Nat.sub_self, List.get?_cons_zero]⟩
    | false =>
      rw [List.find?_cons_of_neg _ (by simp [hq])] at h
      obtain ⟨hle, hget⟩ := ih (n + 1) i x h
      refine ⟨by omega, ?_⟩
      rw [show i - n = (i - (n + 1)) + 1 by omega, List.get?_cons_succ, hget]

theorem firstChildTagged_get? {e : Elem} {t : String} {it : ℕ × Elem}
    (h : firstChildTagged e t = some it) :
    e.children.get? it.1 = some it.2 := by
  rw [firstChildTagged] at h
  have h2 := enumFrom_find?_get? (fun ic => decide (ic.2.tag = t)) e.children
    0 it.1 it.2 (by simpa [List.enum] using h)
  simpa using h2.2

theorem idList_setAttr_value (x : Elem) (v : AttrVal) :
    idList (setAttr x "Value" v) = idList x := by
  have h := idList_modifyAt_pres (fun y => setAttr y "Value" v)
    (fun y => getAttr_setAttr_ne y "Value" "Id" v (by decide))
    (fun y => rfl) [] x
  rwa [modifyAt_nil] at h

theorem idList_mk_listModify (t : String) (a : List (String × AttrVal))
    (cs : List Elem) (i : ℕ) (ci c2 : Elem)
    (hg : cs.get? i = some ci) (hidc : idList c2 = idList ci) :
    idList (.mk t a (listModify cs i (fun _ => c2))) =
      idList (.mk t a cs) := by
  obtain ⟨u1, u2, hcs, hlen, hmod⟩ := listModify_split cs i ci hg
  rw [hmod, idList_mk, idList_mk]
  have hgid : getAttr (Elem.mk t a (u1 ++ c2 :: u2)) "Id" =
      getAttr (Elem.mk t a cs) "Id" := rfl
  have hsplit2 : (iterAllL cs).filterMap (fun x => getAttr x "Id") =
      (iterAllL u1).filterMap (fun x => getAttr x "Id") ++
      (idList ci ++ (iterAllL u2).filterMap (fun x => getAttr x "Id")) := by
    rw [hcs, idsL_append, idsL_cons]
  rw [hgid, idsL_append, idsL_cons, hidc, hsplit2]

theorem idList_set_param_value : ∀ (segs : List String) (e e2 : Elem)
    (v : AttrVal), set_param_value e segs v = some e2 →
    idList e2 = idList e := by
  intro segs
  induction segs with
  | nil => intro e e2 v h; rw [set_param_value] at h; cases h
  | cons seg rest ih =>
    intro e e2 v h
    cases rest with
    | nil =>
      simp only [set_param_value] at h
      cases hit : firstChildTagged e seg with
      | none => simp only [hit] at h; exact Option.noConfusion h
      | some it =>
        simp only [hit] at h
        have hgi : e.children.get? it.1 = some it.2 :=
          firstChildTagged_get? hit
        cases hjm : firstChildTagged it.2 "Manual" with
        | some jm =>
          simp only [hjm] at h
          obtain rfl := Option.some.inj h
          have hgj : it.2.children.get? jm.1 = some jm.2 :=
            firstChildTagged_get? hjm
          cases hit2 : it.2 with
          | mk tg2 aa2 cc2 =>
            rw [hit2] at hgi hgj
            cases e with
            | mk tg aa cc =>
              simp only [Elem.tag, Elem.attrs, Elem.children, hit2]
                at hgi hgj ⊢
              refine idList_mk_listModify tg aa cc it.1
                (Elem.mk tg2 aa2 cc2) _ hgi ?_
              exact idList_mk_listModify tg2 aa2 cc2 jm.1 jm.2 _ hgj
                (idList_setAttr_value jm.2 v)
        | none =>
          simp only [hjm] at h
          by_cases hb : hasAttr it.2 "Value" = true
          · rw [if_pos hb] at h
            obtain rfl := Option.some.inj h
            cases e with
            | mk tg aa cc =>
              simp only [Elem.tag, Elem.attrs, Elem.children] at hgi ⊢
              exact idList_mk_listModify tg aa cc it.1 it.2 _ hgi
                (idList_setAttr_value it.2 v)
          · rw [if_neg hb] at h; cases h
    | cons s2 r2 =>
      simp only [set_param_value] at h
      cases hic : firstChildTagged e seg with
      | none => simp only [hic] at h; exact Option.noConfusion h
      | some ic =>
        simp only [hic] at h
        have hgi : e.children.get? ic.1 = some ic.2 :=
          firstChildTagged_get? hic
        cases hsp : set_param_value ic.2 (s2 :: r2) v with
        | none =>
          simp only [hsp, Option.map_none'] at h
          exact Option.noConfusion h
        | some c2 =>
          simp only [hsp, Option.map_some'] at h
          obtain rfl := Option.some.inj h
          cases e with
          | mk tg aa cc =>
            simp only [Elem.tag, Elem.attrs, Elem.children] at hgi ⊢
            exact idList_mk_listModify tg aa cc ic.1 ic.2 _ hgi
              (ih ic.2 c2 v hsp)

theorem idList_applyParamsNew : ∀ (ps : List (String × JVal))
    (dbLin : Option ℚ → ℚ) (dt : Option String) (e e2 : Elem),
    applyParamsNew dbLin dt e ps = some (.ok e2) → idList e2 = idList e := by
  intro ps
  induction ps with
  | nil =>
    intro dbLin dt e e2 h
    rw [applyParamsNew] at h
    simp only [Option.some.injEq, Except.ok.injEq] at h
    rw [← h]
  | cons pv rest ih =>
    intro dbLin dt e e2 h
    obtain ⟨p, v⟩ := pv
    simp only [applyParamsNew] at h
    split at h
    · exact Option.noConfusion h
    · rename_i av hav
      split at h
      · simp at h
      · rename_i e3 hsp
        rw [ih dbLin dt e3 e2 h,
          idList_set_param_value (splitSlash p) e e3 av hsp]

/-- Claim C1: starting from a document whose "Id" values are pairwise
distinct, any successful add_device insertion — with any requested initial
parameters — yields a document whose "Id" values are again pairwise
distinct; the clone's identifiers are exactly (document maximum)+1, +2,
... assigned per identifier-bearing node in document (traversal) order,
spliced into the id sequence at the insertion point. -/
theorem c1_id_uniqueness (dbLin : Option ℚ → ℚ)
    (root tEl devicesEl donor newDev : Elem) (tp tpath dpath : List ℕ)
    (c : Change)
    (hnodup : (idList root).Nodup)
    (hres : resolveTrack root tp c = some (.ok tpath))
    (htEl : subAt root tpath = some tEl)
    (htarget : c.target = "add_device")
    (hdonor : find_donor_device root c.device_tag = some donor)
    (hdpath : findETAt root tpath false
      ["DeviceChain", "DeviceChain", "Devices"] = some dpath)
    (hdevEl : subAt root dpath = some devicesEl)
    (happly : applyParamsNew dbLin c.device_tag
      (setManualIfFound
        (match c.device_tag with
         | some "Eq8" =>
           reset_eq8_defaults (remapIds donor (find_max_id root + 1)).1
         | some "Compressor2" =>
           reset_compressor_defaults dbLin
             (remapIds donor (find_max_id root + 1)).1
         | _ => (remapIds donor (find_max_id root + 1)).1)
        ["On", "Manual"] (.str "true")) c.params = some (.ok newDev)) :
    ∃ root' msgs,
      applyChange dbLin root tp c = some (root', msgs) ∧
      root' = modifyAt root dpath
        (fun d => .mk d.tag d.attrs
          (pyInsert c.position newDev d.children)) ∧
      idList newDev = (List.range (idList donor).length).map
        (fun i : ℕ => AttrVal.str (intStr (find_max_id root + 1 + (i : ℤ)))) ∧
      (∃ A B, idList root = A ++ B ∧
        idList root' = A ++ idList newDev ++ B) ∧
      (idList root').Nodup := by
  have happ : applyChange dbLin root tp c =
      applyAddDevice dbLin root c.track_name tpath c := by
    simp only [applyChange, hres, htEl, htarget]
    simp
  have hnd0 : idList newDev = idList (setManualIfFound
      (match c.device_tag with
       | some "Eq8" =>
         reset_eq8_defaults (remapIds donor (find_max_id root + 1)).1
       | some "Compressor2" =>
         reset_compressor_defaults dbLin
           (remapIds donor (find_max_id root + 1)).1
       | _ => (remapIds donor (find_max_id root + 1)).1)
      ["On", "Manual"] (.str "true")) :=
    idList_applyParamsNew c.params dbLin c.device_tag _ newDev happly
  have hndids : idList newDev = (List.range (idList donor).length).map
      (fun i : ℕ => AttrVal.str (intStr (find_max_id root + 1 + (i : ℤ)))) := by
    rw [hnd0, idList_setManualIfFound]
    have hsplit : idList (match c.device_tag with
        | some "Eq8" =>
          reset_eq8_defaults (remapIds donor (find_max_id root + 1)).1
        | some "Compressor2" =>
          reset_compressor_defaults dbLin
            (remapIds donor (find_max_id root + 1)).1
        | _ => (remapIds donor (find_max_id root + 1)).1) =
        idList (remapIds donor (find_max_id root + 1)).1 := by
      split
      · exact idList_opsFold _ _
      · rw [reset_comp_eq_fold]; exact idList_opsFold _ _
      · rfl
    rw [hsplit]
    exact (remapIds_ids donor (find_max_id root + 1)).2
  obtain ⟨l1, l2, hins, hl12⟩ := pyInsert_split c.position newDev
    devicesEl.children
  obtain ⟨A, B, hAB, hroot'⟩ := idList_modifyAt_insert dpath root devicesEl
    (fun d => Elem.mk d.tag d.attrs (pyInsert c.position newDev d.children))
    newDev l1 l2 hdevEl (by
      show Elem.mk devicesEl.tag devicesEl.attrs
          (pyInsert c.position newDev devicesEl.children) =
        Elem.mk devicesEl.tag devicesEl.attrs (l1 ++ newDev :: l2)
      rw [hins]) hl12.symm
  refine ⟨modifyAt root dpath
    (fun d => Elem.mk d.tag d.attrs (pyInsert c.position newDev d.children)),
    [.addMsg c.track_name
      (match c.device_name with
       | some s => s
       | none => pyShow c.device_tag)
      (decide (c.position = -1 ∨
        (devicesEl.children.length : ℤ) ≤ c.position))
      c.position c.params],
    ?_, rfl, hndids, ⟨A, B, hAB, hroot'⟩, ?_⟩
  · rw [happ]
    simp only [applyAddDevice, hdonor, happly, hdpath, hdevEl]
  · rw [hroot']
    refine nodup_middle A B (idList newDev) (hAB ▸ hnodup) ?_ ?_
    · rw [hndids]
      exact newIds_nodup _ _ (by
        have := find_max_id_nonneg root
        omega)
    · intro v hv hvAB
      refine newIds_disjoint root (idList donor).length v ?_ ?_
      · rw [hAB]; exact hvAB
      · rw [← hndids]; exact hv

/-- Witness for C6 on the fixture: the unparseable pan value "loud" kills
the run. -/
theorem c6_witness :
    applyChange dbLinW fixRoot [0, 0] chPanBad = none ∧
    runBatchFrom dbLinW [0, 0] (fixRoot, [], []) [chPanBad] = none := by
  have h := c6_unparsable_pan_aborts dbLinW fixRoot [0, 0] [0, 0, 0] chPanBad
    "loud" (by rfl) rfl rfl (by rfl)
  exact ⟨h.1, h.2 [] [] []⟩

/-- Witness for C10 on the fixture: a volume request on the track without
Volume/Manual is a silent no-op. -/
theorem c10_witness :
    applyChange dbLinW fixRoot [0, 0] chVolNoVol = some (fixRoot, []) :=
  (c10_missing_manual_silent dbLinW fixRoot fixNoVol [0, 0] [0, 0, 1] [1, 0]
    chVolNoVol (by rfl) (by rfl) (by rfl)).1 (Or.inl rfl) (Or.inr ⟨0, rfl⟩)
    (by rfl)

/-- Witness for C7 on the fixture: the Send parameter reads through its
Manual child and a written value reads back. -/
theorem c7_witness :
    get_param_value fixHolder "Send" = getAttr (manVal "0.3") "Value" ∧
    ∃ e', set_param_value fixHolder ["Send"] (.str "0.5") = some e' ∧
      get_param_value e' "Send" = some (.str "0.5") :=
  (c7_param_storage_forms fixHolder "Send" (.str "0.5")
    (0, .mk "Send" [] [manVal "0.3"]) (by rfl)).1 (0, manVal "0.3") (by rfl)

/-- Witness for C8 on the fixture: the in-range send request writes exactly
the addressed holder's Manual Value and no other holder path. -/
theorem c8_witness :
    applyChange dbLinW fixRoot [0, 0] chSend =
      some (modifyAt fixRoot [0, 0, 0, 1, 0, 2, 0, 0, 0]
          (fun x => setAttr x "Value" (.num (dbLinW (some (-10))))),
        [.sendMsg "Bass" 0 (3/10) (-10)]) ∧
    ∀ j, j ≠ 0 →
      subAt (modifyAt fixRoot [0, 0, 0, 1, 0, 2, 0, 0, 0]
          (fun x => setAttr x "Value" (.num (dbLinW (some (-10))))))
        ([0, 0, 0, 1, 0, 2] ++ [j]) =
      subAt fixRoot ([0, 0, 0, 1, 0, 2] ++ [j]) :=
  (c8_send_index_bounds dbLinW fixRoot fixBass fixSends [0, 0] [0, 0, 0]
    [1, 0] [0, 0, 0, 1, 0, 2] chSend (-10) (by rfl) rfl (by rfl) (by rfl)
    (by rfl) (by rfl) (by rfl)).2 fixHolder [0, 0, 0, 1, 0, 2, 0, 0, 0]
    (manVal "0.3") (3/10) (by rfl) (by rfl) (by rfl)
    (by with_unfolding_all decide)

/-- Witness for C2 on the fixture: the request naming a nonexistent track
"Ghost" produces exactly one error line and leaves the document and the
rest of the batch untouched. -/
theorem c2_witness :
    ∃ msg : String,
      (msg = "ERROR: Could not find track 'Ghost'" ∨
       msg = "ERROR: Track 'Ghost' index 0 out of range (found 0)") ∧
      applyChange dbLinW fixRoot [0, 0] chGhost = some (fixRoot, [.err msg]) ∧
      runBatchFrom dbLinW [0, 0] (fixRoot, [], []) [chGhost] =
        runBatchFrom dbLinW [0, 0] (fixRoot, [], [msg]) [] ∧
      runBatchFrom dbLinW [0, 0] (fixRoot, [], []) [] =
        runBatchFrom dbLinW [0, 0] (fixRoot, [], []) [] ∧
      (∀ r2 ok2 er2,
        runBatchFrom dbLinW [0, 0] (fixRoot, [], []) [] =
          some (r2, ok2, er2) →
        runBatchFrom dbLinW [0, 0] (fixRoot, [], [msg]) [] =
          some (r2, ok2, msg :: er2)) := by
  have h := c2_partial_failure_isolation dbLinW fixRoot fixRoot fixTracks
    [0, 0] chGhost [] [] [] [] (by decide) (by decide) rfl (by rfl)
    (by decide)
  exact h

/-- Witness for C3 on the fixture: cloning the Eq8 donor with non-default
band values yields registered defaults on the clone and keeps the donor
subtree intact. -/
theorem c3_witness :
    ∃ newDev root',
      newDev = (deviceResetOps dbLinW chAdd.device_tag ++
          [(["On", "Manual"], AttrVal.str "true")]).foldl
          (fun acc o => setManualIfFound acc o.1 o.2)
          (remapIds fixDonor (find_max_id fixRoot + 1)).1 ∧
      root' = modifyAt fixRoot [0, 0, 0, 1, 1, 0]
          (fun d => .mk d.tag d.attrs
            (pyInsert chAdd.position newDev d.children)) ∧
      applyChange dbLinW fixRoot [0, 0] chAdd = some (root',
        [.addMsg chAdd.track_name
          (match chAdd.device_name with
           | some s => s
           | none => pyShow chAdd.device_tag)
          (decide (chAdd.position = -1 ∨
            (fixDevices.children.length : ℤ) ≤ chAdd.position))
          chAdd.position chAdd.params]) ∧
      (∀ o ∈ deviceResetOps dbLinW chAdd.device_tag, ∀ p,
        findET (remapIds fixDonor (find_max_id fixRoot + 1)).1 false o.1 =
          some p →
        getValueAt newDev p = some o.2) ∧
      fixDonor ∈ iterAll root' :=
  c3_donor_clone_isolation dbLinW fixRoot fixBass fixDevices fixDonor
    [0, 0] [0, 0, 0] [0, 0, 0, 1, 1, 0] [0, 0, 0, 1, 1, 0, 0] chAdd (by rfl)
    (by rfl) rfl (Or.inl rfl) rfl (by rfl) (by rfl) (by rfl) (by rfl)
    (by intro r h; have hlen := congrArg List.length h; simp at hlen)

/-- Witness for C1 on the fixture: the insertion keeps the document's "Id"
values pairwise distinct and assigns the clone ids from max+1 on. -/
theorem c1_witness :
    ∃ root' msgs,
      applyChange dbLinW fixRoot [0, 0] chAdd = some (root', msgs) ∧
      root' = modifyAt fixRoot [0, 0, 0, 1, 1, 0]
        (fun d => .mk d.tag d.attrs
          (pyInsert chAdd.position fixNewDev d.children)) ∧
      idList fixNewDev = (List.range (idList fixDonor).length).map
        (fun i : ℕ =>
          AttrVal.str (intStr (find_max_id fixRoot + 1 + (i : ℤ)))) ∧
      (∃ A B, idList fixRoot = A ++ B ∧
        idList root' = A ++ idList fixNewDev ++ B) ∧
      (idList root').Nodup :=
  c1_id_uniqueness dbLinW fixRoot fixBass fixDevices fixDonor fixNewDev
    [0, 0] [0, 0, 0] [0, 0, 0, 1, 1, 0] chAdd (by decide) (by rfl) (by rfl)
    rfl (by rfl) (by rfl) (by rfl) (by rfl)
